import Mathlib

/-!
# WPEBackend-fdo: the embedded protocol server of `src/ws.cpp`

A shallow embedding of the server instance of `ws.cpp` (the surface request
handlers, the bridge handshake, the correlation table, display binding and the
dma-buf attribute-list construction), followed by theorems about it.

Conventions of the embedding.

* A nullable C pointer is an `Option Nat`; `none` is `nullptr`.  A pointer that
  the code never tests against null is a `Nat`.
* A `Surface*` is the index of the object in the list `State.surfaces`.
* Calls into external collaborators (libwayland, the `ExportableClient`, EGL,
  the dma-buf subsystem) are recorded, in order, as a list of `Call`s.
* `std::abort()` and a failed `assert` end a run with `Outcome.abort`; a
  dereference of a pointer to no live object, or an array access out of
  bounds, ends it with `Outcome.undefined`.
* Machine integers are `Nat`/`Int` with the wrap-around written out.
-/

namespace WS

/-! ## Outcomes -/

/-- Result of running a piece of the server: a value, process termination
(`std::abort`, failed `assert`), or undefined behaviour of the C++ code. -/
inductive Outcome (α : Type) where
  | ok (a : α)
  | abort
  | undefined
  deriving DecidableEq, Repr

/-- Sequencing of outcomes: the first failure ends the run. -/
def Outcome.bind {α β : Type} (x : Outcome α) (f : α → Outcome β) : Outcome β :=
  match x with
  | .ok a => f a
  | .abort => .abort
  | .undefined => .undefined

/-! ## Calls to external collaborators -/

/-- Observable calls the server makes on its collaborators. -/
inductive Call where
  /-- The call `wl_buffer_send_release(buffer)`. -/
  | wl_buffer_send_release (buffer : Nat)
  /-- The call `exportableClient->exportLinuxDmabuf(dmabufBuffer)`. -/
  | exportLinuxDmabuf (exportableClient : Nat) (dmabufBuffer : Nat)
  /-- The call `exportableClient->exportBufferResource(bufferResource)`. -/
  | exportBufferResource (exportableClient : Nat) (bufferResource : Option Nat)
  /-- The call `exportableClient->frameCallback(callbackResource)`; the
  callback resource is named by its client and object id. -/
  | frameCallback (exportableClient : Nat) (client : Nat) (callback : Nat)
  /-- The call `wl_resource_post_no_memory` on a resource of `client`. -/
  | wl_resource_post_no_memory (client : Nat)
  /-- The call `wpe_bridge_send_connected(resource, bridgeID)`. -/
  | wpe_bridge_send_connected (resource : Nat) (bridgeID : Nat)
  /-- The call through the resolved `eglBindWaylandDisplayWL` pointer. -/
  | eglBindWaylandDisplayWL (fn : Nat) (eglDisplay : Nat)
  /-- The call `linux_dmabuf_setup(m_display, eglDisplay)`. -/
  | linux_dmabuf_setup (eglDisplay : Nat)
  /-- The call `wl_client_create(m_display, fd)`. -/
  | wl_client_create (fd : Int)
  deriving DecidableEq, Repr

/-! ## Surface (ws.cpp:118-126) -/

/-- The `struct Surface` of ws.cpp, with its default member initialisers. -/
structure Surface where
  id : Nat := 0
  client : Option Nat := none
  exportableClient : Option Nat := none
  bufferResource : Option Nat := none
  dmabufBuffer : Option Nat := none
  deriving DecidableEq, Repr

/-- What libwayland's `wl_resource_create(client, interface, version, id)`
does to the set of live protocol objects, a list of (client, object id)
pairs, as the specification describes it: it yields no resource when the id
is already in use for that client, and the new resource otherwise. -/
def wl_resource_create (objects : List (Nat × Nat)) (client id : Nat) :
    Option (Nat × Nat) :=
  if (client, id) ∈ objects then none else some (client, id)

/-- The `attach` handler of `s_surfaceInterface` (ws.cpp:132-141).
`linux_dmabuf_get_buffer` is the external lookup of the dma-buf subsystem. -/
def attach (linux_dmabuf_get_buffer : Option Nat → Option Nat)
    (surface : Surface) (bufferResource : Option Nat) : Surface × List Call :=
  let surface1 := { surface with dmabufBuffer := linux_dmabuf_get_buffer bufferResource }
  let released : List Call :=
    match surface1.bufferResource with
    | some previous => [Call.wl_buffer_send_release previous]
    | none => []
  ({ surface1 with bufferResource := bufferResource }, released)

/-- The `frame` handler of `s_surfaceInterface` (ws.cpp:145-159).  It returns
the live protocol objects afterwards and the calls made; the Surface itself is
not written. -/
def frame (objects : List (Nat × Nat)) (client : Nat) (surface : Surface)
    (callback : Nat) : List (Nat × Nat) × List Call :=
  match surface.exportableClient with
  | none => (objects, [])
  | some exportableClient =>
    match wl_resource_create objects client callback with
    | none => (objects, [Call.wl_resource_post_no_memory client])
    | some callbackResource =>
      (callbackResource :: objects,
        [Call.frameCallback exportableClient callbackResource.1 callbackResource.2])

/-- The `commit` handler of `s_surfaceInterface` (ws.cpp:165-178). -/
def commit (surface : Surface) : Surface × List Call :=
  match surface.exportableClient with
  | none => (surface, [])
  | some exportableClient =>
    match surface.dmabufBuffer with
    | some dmabufBuffer =>
      (surface, [Call.exportLinuxDmabuf exportableClient dmabufBuffer])
    | none =>
      let bufferResource := surface.bufferResource
      ({ surface with bufferResource := none },
        [Call.exportBufferResource exportableClient bufferResource])

/-- A run of `attach` requests on one Surface, in order, with the calls they
make collected in order. -/
def attachAll (linux_dmabuf_get_buffer : Option Nat → Option Nat) :
    Surface → List (Option Nat) → Surface × List Call
  | surface, [] => (surface, [])
  | surface, b :: bs =>
    let r := attach linux_dmabuf_get_buffer surface b
    let rest := attachAll linux_dmabuf_get_buffer r.1 bs
    (rest.1, r.2 ++ rest.2)

/-- Number of release notifications `buffer` received in a list of calls. -/
def releaseCount (calls : List Call) (buffer : Nat) : Nat :=
  calls.count (Call.wl_buffer_send_release buffer)

/-! ## The correlation table `m_viewBackendMap` -/

/-- The lookup `m_viewBackendMap.find(id)` of the
`std::unordered_map<uint32_t, Surface*>`: the mapped `Surface*`, or `none`
for `end()`. -/
def mapFind : List (Nat × Nat) → Nat → Option Nat
  | [], _ => none
  | (key, surface) :: rest, id => if key = id then some surface else mapFind rest id

/-- The insertion `m_viewBackendMap.insert({ id, surface })`: as in the C++
container, nothing is inserted when the key is already present. -/
def mapInsert (m : List (Nat × Nat)) (id surface : Nat) : List (Nat × Nat) :=
  match mapFind m id with
  | some _ => m
  | none => (id, surface) :: m

/-- The removal `m_viewBackendMap.erase(it)` of the element with key `id`. -/
def mapErase : List (Nat × Nat) → Nat → List (Nat × Nat)
  | [], _ => []
  | (key, surface) :: rest, id =>
    if key = id then mapErase rest id else (key, surface) :: mapErase rest id

/-! ## Process state -/

/-- The value `EGL_NO_DISPLAY`, the null `EGLDisplay`. -/
def EGL_NO_DISPLAY : Nat := 0

/-- The mutable state of the server process: the members of the `Instance`
singleton that the modelled functions read or write, the three file-level EGL
function pointers (ws.cpp:67-69), the function-local `static uint32_t
bridgeID` of the bridge `connect` handler, the heap of `Surface` objects
(a `Surface*` is an index into `surfaces`), the live protocol objects as
(client, object id) pairs, and the descriptors handed to `wl_client_create`. -/
structure State where
  m_eglDisplay : Nat := EGL_NO_DISPLAY
  m_viewBackendMap : List (Nat × Nat) := []
  bridgeID : Nat := 0
  eglBindWaylandDisplayWL : Option Nat := none
  eglCreateImageKHR : Option Nat := none
  eglDestroyImageKHR : Option Nat := none
  surfaces : List Surface := []
  objects : List (Nat × Nat) := []
  clients : List Int := []
  deriving DecidableEq, Repr

/-- The state of a freshly started process. -/
def State.initial : State := {}

/-! ## Compositor and bridge globals -/

/-- The `create_surface` handler of `s_compositorInterface`
(ws.cpp:191-209). -/
def create_surface (st : State) (client id : Nat) : State × List Call :=
  match wl_resource_create st.objects client id with
  | none => (st, [Call.wl_resource_post_no_memory client])
  | some surfaceResource =>
    ({ st with
        objects := surfaceResource :: st.objects
        surfaces := st.surfaces ++ [{ id := id, client := some client }] }, [])

/-- The member `Instance::createSurface` (ws.cpp:358-361). -/
def createSurface (st : State) (id surface : Nat) : State :=
  { st with m_viewBackendMap := mapInsert st.m_viewBackendMap id surface }

/-- The `connect` handler of `s_wpeBridgeInterface` (ws.cpp:216-226).
`surface` is the user data of the surface resource; `++bridgeID` is the
increment of a `uint32_t`. -/
def connect (st : State) (resource : Nat) (surface : Option Nat) : State × List Call :=
  match surface with
  | none => (st, [])
  | some surface =>
    let bridgeID := (st.bridgeID + 1) % 2 ^ 32
    (createSurface { st with bridgeID := bridgeID } bridgeID surface,
      [Call.wpe_bridge_send_connected resource bridgeID])

/-! ## View backend registration (ws.cpp:441-458) -/

/-- The member `Instance::registerViewBackend`: the state afterwards and the
returned `wl_client*`. -/
def registerViewBackend (st : State) (id : Nat) (exportableClient : Nat) :
    Outcome (State × Option Nat) :=
  match mapFind st.m_viewBackendMap id with
  | none => .abort
  | some it =>
    match st.surfaces[it]? with
    | none => .undefined
    | some surface =>
      .ok ({ st with
              surfaces := st.surfaces.set it
                { surface with exportableClient := some exportableClient } },
            surface.client)

/-- The member `Instance::unregisterViewBackend`. -/
def unregisterViewBackend (st : State) (id : Nat) : Outcome State :=
  match mapFind st.m_viewBackendMap id with
  | none => .ok st
  | some it =>
    match st.surfaces[it]? with
    | none => .undefined
    | some surface =>
      .ok { st with
              surfaces := st.surfaces.set it { surface with exportableClient := none }
              m_viewBackendMap := mapErase st.m_viewBackendMap id }

/-! ## Request sequences -/

/-- Requests of protocol clients and calls of the embedder that drive the
surface and correlation state. -/
inductive Request where
  | create_surface (client : Nat) (id : Nat)
  | attach (surface : Nat) (bufferResource : Option Nat)
  | frame (client : Nat) (surface : Nat) (callback : Nat)
  | commit (surface : Nat)
  | connect (resource : Nat) (surface : Option Nat)
  | registerViewBackend (id : Nat) (exportableClient : Nat)
  | unregisterViewBackend (id : Nat)
  deriving DecidableEq, Repr

/-- One request run on the process state.  A surface request names the
`Surface` that is the user data of its surface resource. -/
def step (linux_dmabuf_get_buffer : Option Nat → Option Nat) (st : State) :
    Request → Outcome (State × List Call)
  | .create_surface client id => .ok (create_surface st client id)
  | .attach surface bufferResource =>
    match st.surfaces[surface]? with
    | none => .undefined
    | some s =>
      let r := attach linux_dmabuf_get_buffer s bufferResource
      .ok ({ st with surfaces := st.surfaces.set surface r.1 }, r.2)
  | .frame client surface callback =>
    match st.surfaces[surface]? with
    | none => .undefined
    | some s =>
      let r := frame st.objects client s callback
      .ok ({ st with objects := r.1 }, r.2)
  | .commit surface =>
    match st.surfaces[surface]? with
    | none => .undefined
    | some s =>
      let r := commit s
      .ok ({ st with surfaces := st.surfaces.set surface r.1 }, r.2)
  | .connect resource surface => .ok (connect st resource surface)
  | .registerViewBackend id exportableClient =>
    (registerViewBackend st id exportableClient).bind fun r => .ok (r.1, [])
  | .unregisterViewBackend id =>
    (unregisterViewBackend st id).bind fun st1 => .ok (st1, [])

/-- A sequence of requests run in order, with all calls collected in order. -/
def run (linux_dmabuf_get_buffer : Option Nat → Option Nat) :
    State → List Request → Outcome (State × List Call)
  | st, [] => .ok (st, [])
  | st, r :: rs =>
    (step linux_dmabuf_get_buffer st r).bind fun a =>
      (run linux_dmabuf_get_buffer a.1 rs).bind fun b => .ok (b.1, a.2 ++ b.2)

/-- The correlation ids sent in `connected` events, in order. -/
def issuedIds : List Call → List Nat
  | [] => []
  | Call.wpe_bridge_send_connected _ bridgeID :: rest => bridgeID :: issuedIds rest
  | _ :: rest => issuedIds rest

/-! ## Display binding (ws.cpp:293-340) -/

/-- The C library function `strstr(haystack, needle)` on strings given as
their characters before the terminating NUL: the suffix of `haystack` that
starts at the first occurrence of `needle`, or `none` for a null result. -/
def strstr : List Char → List Char → Option (List Char)
  | [], needle => if needle = [] then some [] else none
  | c :: cs, needle =>
    if needle.isPrefixOf (c :: cs) then some (c :: cs) else strstr cs needle

/-- The `while` loop of `isEGLExtensionSupported` (ws.cpp:300-304), run for at
most `fuel` iterations from `extensionListPtr`; `none` when the iterations do
not suffice.  The character at `extensionListPtr[extensionLen]` is the head of
the rest after the match, and the terminating NUL when that rest is empty. -/
def isEGLExtensionSupportedLoop (extension : List Char) :
    Nat → List Char → Option Bool
  | 0, _ => none
  | fuel + 1, extensionListPtr =>
    match strstr extensionListPtr extension with
    | none => some false
    | some found =>
      match found.drop extension.length with
      | [] => some true
      | c :: rest =>
        if c = ' ' then some true
        else isEGLExtensionSupportedLoop extension fuel (c :: rest)

/-- The function `isEGLExtensionSupported` (ws.cpp:293-306); `none` stands for
a loop that does not end. -/
def isEGLExtensionSupported (extensionList : Option (List Char))
    (extension : List Char) : Option Bool :=
  match extensionList with
  | none => some false
  | some list => isEGLExtensionSupportedLoop extension (list.length + 1) list

/-- The EGL implementation as `Instance::initialize` sees it: the
`EGL_EXTENSIONS` string of a display (`none` for a null result), the address
`eglGetProcAddress` resolves a name to (`none` for null), and the `EGLBoolean`
that a call through a resolved bind function returns for a display. -/
structure EGL where
  eglQueryString : Nat → Option (List Char)
  eglGetProcAddress : String → Option Nat
  callBindWaylandDisplay : Nat → Nat → Bool

/-- The member `Instance::initialize` (ws.cpp:308-340): the state afterwards,
the returned `bool` and the calls made; `none` only if a loop of
`isEGLExtensionSupported` does not end. -/
def initializeInstance (egl : EGL) (st : State) (eglDisplay : Nat) :
    Option (State × Bool × List Call) :=
  if st.m_eglDisplay = eglDisplay then some (st, true, [])
  else if st.m_eglDisplay ≠ EGL_NO_DISPLAY then some (st, false, [])
  else
    let extensions := egl.eglQueryString eglDisplay
    (isEGLExtensionSupported extensions "EGL_WL_bind_wayland_display".toList).bind
      fun hasBindDisplay =>
    let st1 : State :=
      if hasBindDisplay then
        { st with eglBindWaylandDisplayWL := egl.eglGetProcAddress "eglBindWaylandDisplayWL" }
      else st
    match st1.eglBindWaylandDisplayWL with
    | none => some (st1, false, [])
    | some bindFn =>
      (isEGLExtensionSupported extensions "EGL_KHR_image_base".toList).bind
        fun hasImageBase =>
      let st2 : State :=
        if hasImageBase then
          { st1 with
              eglCreateImageKHR := egl.eglGetProcAddress "eglCreateImageKHR"
              eglDestroyImageKHR := egl.eglGetProcAddress "eglDestroyImageKHR" }
        else st1
      if st2.eglCreateImageKHR = none ∨ st2.eglDestroyImageKHR = none then
        some (st2, false, [])
      else if egl.callBindWaylandDisplay bindFn eglDisplay = false then
        some (st2, false, [Call.eglBindWaylandDisplayWL bindFn eglDisplay])
      else
        some ({ st2 with m_eglDisplay := eglDisplay }, true,
          [Call.eglBindWaylandDisplayWL bindFn eglDisplay, Call.linux_dmabuf_setup eglDisplay])

/-- A sequence of `Instance::initialize` calls, each against the EGL
implementation it meets and with its own display handle; the final state and
the returned values in order. -/
def initializeAll : State → List (EGL × Nat) → Option (State × List Bool)
  | st, [] => some (st, [])
  | st, (egl, eglDisplay) :: rest =>
    (initializeInstance egl st eglDisplay).bind fun r =>
      (initializeAll r.1 rest).bind fun q => some (q.1, r.2.1 :: q.2)

/-- The member `Instance::createClient` (ws.cpp:342-356).  `socketpair` is
the pair of descriptors the OS call yields, `none` when it fails; `dup` is the
result of `dup(pair[1])`. -/
def createClient (st : State) (socketpair : Option (Int × Int)) (dup : Int → Int) :
    State × Int × List Call :=
  if st.m_eglDisplay = EGL_NO_DISPLAY then (st, -1, [])
  else
    match socketpair with
    | none => (st, -1, [])
    | some pair =>
      let clientFd := dup pair.2
      ({ st with clients := st.clients ++ [pair.1] }, clientFd,
        [Call.wl_client_create pair.1])

/-! ## Image creation (ws.cpp:363-439) -/

/-- Conversion of an integer value to `EGLint`, a 32-bit signed integer: the
value with the same low 32 bits. -/
def toEGLint (x : Int) : Int :=
  (x + 2 ^ 31) % 2 ^ 32 - 2 ^ 31

/-- The enumerants that ws.cpp takes from the EGL headers and does not define
itself. -/
structure EGLEnums where
  EGL_WIDTH : Int
  EGL_HEIGHT : Int
  EGL_LINUX_DRM_FOURCC_EXT : Int
  EGL_NONE : Int
  EGL_WAYLAND_BUFFER_WL : Int

/-- The enumerant `EGL_LINUX_DMA_BUF_EXT` (ws.cpp:41). -/
def EGL_LINUX_DMA_BUF_EXT : Int := 0x3270

/-- Modelled from the spec: the constant `MAX_DMABUF_PLANES` of
`linux-dmabuf/linux-dmabuf.h`, the size of the per-plane arrays of
`struct linux_dmabuf_attributes`; the spec bounds the plane count by 4. -/
def MAX_DMABUF_PLANES : Nat := 4

/-- Modelled from the spec: `struct linux_dmabuf_attributes` of
`linux-dmabuf/linux-dmabuf.h`, with the members that ws.cpp reads: the
dimensions (`int32_t`), the fourcc format (`uint32_t`), the plane count
(`int`) and the per-plane arrays of descriptors (`int`), byte offsets and
strides (`uint32_t`) and modifiers (`uint64_t`), indexed below
`MAX_DMABUF_PLANES`. -/
structure linux_dmabuf_attributes where
  width : Int
  height : Int
  format : Nat
  n_planes : Int
  fd : Nat → Int
  offset : Nat → Nat
  stride : Nat → Nat
  modifier : Nat → Nat

/-- One row of the table `planeEnums` of `createImage` (ws.cpp:378-384). -/
structure PlaneEnum where
  fd : Int
  offset : Int
  pitch : Int
  modifierLo : Int
  modifierHi : Int
  deriving DecidableEq, Repr

/-- The table `planeEnums[4]` (ws.cpp:384-405), with the values of the
enumerants as ws.cpp:42-64 defines them. -/
def planeEnums : List PlaneEnum :=
  [ { fd := 0x3272, offset := 0x3273, pitch := 0x3274, modifierLo := 0x3443, modifierHi := 0x3444 },
    { fd := 0x3275, offset := 0x3276, pitch := 0x3277, modifierLo := 0x3445, modifierHi := 0x3446 },
    { fd := 0x3278, offset := 0x3279, pitch := 0x327A, modifierLo := 0x3447, modifierHi := 0x3448 },
    { fd := 0x3440, offset := 0x3441, pitch := 0x3442, modifierLo := 0x3449, modifierHi := 0x344A } ]

/-- A read `array[i]` of a per-plane array of `linux_dmabuf_attributes`. -/
def planeArrayGet {α : Type} (array : Nat → α) (i : Nat) : Outcome α :=
  if i < MAX_DMABUF_PLANES then .ok (array i) else .undefined

/-- The write `attribs[atti++] = value` into `EGLint attribs[50]`: `attribs`
holds the entries written so far, so `atti` is its length. -/
def attribsStore (attribs : List Int) (value : Int) : Outcome (List Int) :=
  if attribs.length < 50 then .ok (attribs ++ [value]) else .undefined

/-- The body of the plane loop of `createImage` (ws.cpp:417-426) for plane
`i`. -/
def writePlane (bufAttribs : linux_dmabuf_attributes) (i : Nat) (attribs : List Int) :
    Outcome (List Int) :=
  match planeEnums[i]? with
  | none => .undefined
  | some plane =>
    (attribsStore attribs plane.fd).bind fun a1 =>
    (planeArrayGet bufAttribs.fd i).bind fun fd =>
    (attribsStore a1 fd).bind fun a2 =>
    (attribsStore a2 plane.offset).bind fun a3 =>
    (planeArrayGet bufAttribs.offset i).bind fun offset =>
    (attribsStore a3 (toEGLint offset)).bind fun a4 =>
    (attribsStore a4 plane.pitch).bind fun a5 =>
    (planeArrayGet bufAttribs.stride i).bind fun stride =>
    (attribsStore a5 (toEGLint stride)).bind fun a6 =>
    (attribsStore a6 plane.modifierLo).bind fun a7 =>
    (planeArrayGet bufAttribs.modifier i).bind fun modifier =>
    (attribsStore a7 (toEGLint (((modifier % 2 ^ 64) &&& 0xFFFFFFFF : Nat) : Int))).bind fun a8 =>
    (attribsStore a8 plane.modifierHi).bind fun a9 =>
    attribsStore a9 (toEGLint (((modifier % 2 ^ 64) >>> 32 : Nat) : Int))

/-- The plane loop `for (int i = 0; i < n_planes; i++)` of `createImage`
(ws.cpp:416-427), from plane `i` on for `count` iterations. -/
def writePlanes (bufAttribs : linux_dmabuf_attributes) :
    Nat → Nat → List Int → Outcome (List Int)
  | 0, _, attribs => .ok attribs
  | count + 1, i, attribs =>
    (writePlane bufAttribs i attribs).bind fun a => writePlanes bufAttribs count (i + 1) a

/-- The attribute array that `createImage` builds (ws.cpp:407-429). -/
def buildAttribs (e : EGLEnums) (bufAttribs : linux_dmabuf_attributes) : Outcome (List Int) :=
  (attribsStore [] e.EGL_WIDTH).bind fun a1 =>
  (attribsStore a1 bufAttribs.width).bind fun a2 =>
  (attribsStore a2 e.EGL_HEIGHT).bind fun a3 =>
  (attribsStore a3 bufAttribs.height).bind fun a4 =>
  (attribsStore a4 e.EGL_LINUX_DRM_FOURCC_EXT).bind fun a5 =>
  (attribsStore a5 (toEGLint bufAttribs.format)).bind fun a6 =>
  (writePlanes bufAttribs bufAttribs.n_planes.toNat 0 a6).bind fun a7 =>
  attribsStore a7 e.EGL_NONE

/-- The arguments of a call through the `eglCreateImageKHR` pointer; the
context is always `EGL_NO_CONTEXT`. -/
structure CreateImageCall where
  fn : Nat
  dpy : Nat
  target : Int
  buffer : Option Nat
  attrib_list : Option (List Int)
  deriving DecidableEq, Repr

/-- The member `Instance::createImage(struct wl_resource*)` (ws.cpp:363-368):
`none` is `EGL_NO_IMAGE_KHR` returned without a call, `some call` the image
that the EGL call with these arguments returns. -/
def createImage (e : EGLEnums) (st : State) (resourceBuffer : Option Nat) :
    Outcome (Option CreateImageCall) :=
  if st.m_eglDisplay = EGL_NO_DISPLAY then .ok none
  else
    match st.eglCreateImageKHR with
    | none => .undefined
    | some fn =>
      .ok (some { fn := fn, dpy := st.m_eglDisplay, target := e.EGL_WAYLAND_BUFFER_WL,
                  buffer := resourceBuffer, attrib_list := none })

/-- The member `Instance::createImage(const struct linux_dmabuf_buffer*)`
(ws.cpp:370-432).  `bufAttribs` is what `linux_dmabuf_get_buffer_attributes`
returns for the buffer, `none` for null. -/
def createImageDmabuf (e : EGLEnums) (st : State)
    (bufAttribs : Option linux_dmabuf_attributes) : Outcome (Option CreateImageCall) :=
  if st.m_eglDisplay = EGL_NO_DISPLAY then .ok none
  else
    match bufAttribs with
    | none => .abort
    | some bufAttribs =>
      (buildAttribs e bufAttribs).bind fun attribs =>
        match st.eglCreateImageKHR with
        | none => .undefined
        | some fn =>
          .ok (some { fn := fn, dpy := st.m_eglDisplay, target := EGL_LINUX_DMA_BUF_EXT,
                      buffer := none, attrib_list := some attribs })

/-- The member `Instance::destroyImage` (ws.cpp:434-439): the function
pointer called with the display and the image, or `none` for no call. -/
def destroyImage (st : State) (image : Nat) : Outcome (Option (Nat × Nat × Nat)) :=
  if st.m_eglDisplay = EGL_NO_DISPLAY then .ok none
  else
    match st.eglDestroyImageKHR with
    | none => .undefined
    | some fn => .ok (some (fn, st.m_eglDisplay, image))

/-! ## The attribute list as the specification words it -/

/-- The ten entries the specification lists for plane `i`: the descriptor,
byte offset, row pitch and the low and high 32 bits of the modifier, each
after the tag of plane `i`. -/
def specPlaneAttribs (bufAttribs : linux_dmabuf_attributes) (i : Nat) : List Int :=
  let tags := planeEnums.getD i { fd := 0, offset := 0, pitch := 0, modifierLo := 0, modifierHi := 0 }
  [tags.fd, bufAttribs.fd i,
   tags.offset, toEGLint (bufAttribs.offset i),
   tags.pitch, toEGLint (bufAttribs.stride i),
   tags.modifierLo, toEGLint ((bufAttribs.modifier i % 2 ^ 64 % 2 ^ 32 : Nat) : Int),
   tags.modifierHi, toEGLint ((bufAttribs.modifier i % 2 ^ 64 / 2 ^ 32 : Nat) : Int)]

/-- The attribute list the specification gives for a buffer of `n` planes:
width, height, format, the planes `0..n-1` in increasing order, and a single
`EGL_NONE`. -/
def specAttribs (e : EGLEnums) (bufAttribs : linux_dmabuf_attributes) (n : Nat) : List Int :=
  [e.EGL_WIDTH, bufAttribs.width, e.EGL_HEIGHT, bufAttribs.height,
   e.EGL_LINUX_DRM_FOURCC_EXT, toEGLint bufAttribs.format]
  ++ (List.range n).flatMap (specPlaneAttribs bufAttribs)
  ++ [e.EGL_NONE]

/-- Number of bridge `connect` requests on a valid surface in a sequence. -/
def connectCount : List Request → Nat
  | [] => 0
  | Request.connect _ (some _) :: rest => connectCount rest + 1
  | _ :: rest => connectCount rest

/-- The ids of the registrations in force after one more successful request:
`registerViewBackend(id, _)` adds `id`, `unregisterViewBackend(id)` removes
it. -/
def trackRegistration (registered : List Nat) : Request → List Nat
  | .registerViewBackend id _ => id :: registered
  | .unregisterViewBackend id => registered.filter fun k => decide (k ≠ id)
  | _ => registered

/-- The ids that were passed to a `registerViewBackend` call of the sequence
and not to an `unregisterViewBackend` call after it. -/
def registeredIds (reqs : List Request) : List Nat :=
  reqs.foldl trackRegistration []

/-- Every Surface with an `exportableClient` is the target of a table entry
whose id is among `registered`. -/
def ExportableClientsRegistered (st : State) (registered : List Nat) : Prop :=
  ∀ p surface exportableClient, st.surfaces[p]? = some surface →
    surface.exportableClient = some exportableClient →
    ∃ id, mapFind st.m_viewBackendMap id = some p ∧ id ∈ registered

/-- The two buffer requests of a Surface. -/
inductive BufferRequest where
  | attach (bufferResource : Option Nat)
  | commit
  deriving DecidableEq, Repr

/-- A buffer request as a request on the Surface `p`. -/
def BufferRequest.onSurface (p : Nat) : BufferRequest → Request
  | .attach bufferResource => .attach p bufferResource
  | .commit => .commit p

/-- The buffers attached by a sequence of buffer requests, in order. -/
def attachedBuffers : List BufferRequest → List (Option Nat)
  | [] => []
  | .attach bufferResource :: rest => bufferResource :: attachedBuffers rest
  | .commit :: rest => attachedBuffers rest

/-- The one call by which `commit` forwards the pending buffer of `surface`
to `exportableClient`. -/
def forwardPending (exportableClient : Nat) (surface : Surface) : Call :=
  match surface.dmabufBuffer with
  | some dmabufBuffer => Call.exportLinuxDmabuf exportableClient dmabufBuffer
  | none => Call.exportBufferResource exportableClient surface.bufferResource

/-- Requests that create and connect a surface, attach buffer 7 and commit
while no backend is registered, then register client 42 and commit again. -/
def lateRegistrationRequests : List Request :=
  [.create_surface 1 3, .connect 9 (some 0), .attach 0 (some 7), .commit 0,
   .registerViewBackend 1 42, .commit 0]

/-- The calls of a list that hand a buffer to an `ExportableClient`. -/
def exportCalls : List Call → List Call
  | [] => []
  | Call.exportLinuxDmabuf exportableClient dmabufBuffer :: rest =>
    Call.exportLinuxDmabuf exportableClient dmabufBuffer :: exportCalls rest
  | Call.exportBufferResource exportableClient bufferResource :: rest =>
    Call.exportBufferResource exportableClient bufferResource :: exportCalls rest
  | _ :: rest => exportCalls rest

/-- A sequence of `Instance::createClient` calls for each of which the OS
yields a socket pair; every call comes with its pair and with what `dup`
returns.  The result holds the state afterwards, the returned descriptors in
order and the calls made. -/
def createClients : State → List ((Int × Int) × (Int → Int)) → State × List Int × List Call
  | st, [] => (st, [], [])
  | st, (pair, dup) :: rest =>
    let r := createClient st (some pair) dup
    let q := createClients r.1 rest
    (q.1, r.2.1 :: q.2.1, r.2.2 ++ q.2.2)

/-- A bound display has all three EGL functions resolved. -/
def FunctionsResolved (st : State) : Prop :=
  st.m_eglDisplay ≠ EGL_NO_DISPLAY →
    st.eglBindWaylandDisplayWL ≠ none ∧ st.eglCreateImageKHR ≠ none
      ∧ st.eglDestroyImageKHR ≠ none

/-- The space-separated names of an extension list, as the claim about
`isEGLExtensionSupported` words it: the maximal runs of characters between
spaces. -/
def spaceSeparatedNames : List Char → List (List Char)
  | [] => [[]]
  | c :: cs =>
    match spaceSeparatedNames cs with
    | [] => [[c]]
    | name :: names => if c = ' ' then [] :: name :: names else (c :: name) :: names

/-! ## Sample inputs -/

/-- The enumerants of `EGLEnums` with their values in the Khronos headers. -/
def khronosEnums : EGLEnums :=
  { EGL_WIDTH := 0x3057, EGL_HEIGHT := 0x3056, EGL_LINUX_DRM_FOURCC_EXT := 0x3271,
    EGL_NONE := 0x3038, EGL_WAYLAND_BUFFER_WL := 0x31D5 }

/-- A state with display 1 bound and the three EGL functions resolved. -/
def boundState : State :=
  { m_eglDisplay := 1, eglBindWaylandDisplayWL := some 100,
    eglCreateImageKHR := some 101, eglDestroyImageKHR := some 102 }

/-- A 640x480 two-plane buffer (format `NV12`) whose plane modifiers have bits
set in both 32-bit halves. -/
def nv12Buffer : linux_dmabuf_attributes :=
  { width := 640, height := 480, format := 0x3231564E, n_planes := 2,
    fd := fun i => if i = 0 then 10 else 11,
    offset := fun i => if i = 0 then 0 else 307200,
    stride := fun _ => 640,
    modifier := fun _ => 0x0100000000000002 }

/-- A client creates a surface and connects it three times through the
bridge; the first id is registered and unregistered in between. -/
def handshakeRequests : List Request :=
  [.create_surface 1 3, .connect 9 (some 0), .registerViewBackend 1 42,
   .unregisterViewBackend 1, .connect 9 (some 0), .connect 9 (some 0)]

/-- The state that `handshakeRequests` leads to from the initial state. -/
def handshakeState : State :=
  { m_viewBackendMap := [(3, 0), (2, 0)], bridgeID := 3,
    surfaces := [{ id := 3, client := some 1 }], objects := [(1, 3)] }

/-- A client creates a surface and connects it `2 ^ 32` times. -/
def wrapRequests : List Request :=
  .create_surface 1 3 :: List.replicate (2 ^ 32) (.connect 9 (some 0))

/-- A state in which a surface of client 1 is connected under id 1. -/
def connectedState : State :=
  { m_viewBackendMap := [(1, 0)], bridgeID := 1,
    surfaces := [{ id := 3, client := some 1 }], objects := [(1, 3)] }

/-- The state `connectedState` after `registerViewBackend(1, 42)`. -/
def registeredState : State :=
  { m_viewBackendMap := [(1, 0)], bridgeID := 1,
    surfaces := [{ id := 3, client := some 1, exportableClient := some 42 }],
    objects := [(1, 3)] }

/-- An EGL implementation that has both extensions, resolves the three
functions and binds every display. -/
def fullEGL : EGL :=
  { eglQueryString := fun _ => some "EGL_WL_bind_wayland_display EGL_KHR_image_base".toList
    eglGetProcAddress := fun name =>
      if name = "eglBindWaylandDisplayWL" then some 100
      else if name = "eglCreateImageKHR" then some 101
      else if name = "eglDestroyImageKHR" then some 102
      else none
    callBindWaylandDisplay := fun _ _ => true }

/-- The state of a fresh instance after `fullEGL` bound display 5. -/
def boundState5 : State :=
  { m_eglDisplay := 5, eglBindWaylandDisplayWL := some 100,
    eglCreateImageKHR := some 101, eglDestroyImageKHR := some 102 }

/-- A dma-buf subsystem in which buffer resource 8 is backed by the dma-buf
buffer 80 and no other resource is. -/
def dmabufLookup : Option Nat → Option Nat :=
  fun bufferResource => if bufferResource = some 8 then some 80 else none

/-- The end-to-end scenario on a fresh server: client `client` creates the
surface `surfaceId` and connects it through the bridge resource `resource`;
the embedder registers `exportableClient` under id 1; the client attaches
`buffer` and commits; the embedder unregisters id 1. -/
def scenarioRequests (client surfaceId resource exportableClient buffer : Nat) :
    List Request :=
  [.create_surface client surfaceId, .connect resource (some 0),
   .registerViewBackend 1 exportableClient, .attach 0 (some buffer), .commit 0,
   .unregisterViewBackend 1]

/-- The state at the end of `scenarioRequests`, when `buffer` is backed by
the dma-buf buffer `dmabufBuffer`. -/
def scenarioState (client surfaceId buffer dmabufBuffer : Nat) : State :=
  { bridgeID := 1,
    surfaces := [{ id := surfaceId, client := some client,
                   bufferResource := some buffer, dmabufBuffer := some dmabufBuffer }],
    objects := [(client, surfaceId)] }

/-- A buffer with no plane. -/
def noPlaneBuffer : linux_dmabuf_attributes :=
  { width := 16, height := 16, format := 0x34325258, n_planes := 0,
    fd := fun _ => 0, offset := fun _ => 0, stride := fun _ => 0, modifier := fun _ => 0 }

/-- An EGL implementation whose displays have the bind-display extension
only; it resolves the three functions. -/
def bindOnlyEGL : EGL :=
  { fullEGL with eglQueryString := fun _ => some "EGL_WL_bind_wayland_display".toList }

/-- An EGL implementation whose displays have the image-creation extension
only; it resolves the three functions. -/
def imageOnlyEGL : EGL :=
  { fullEGL with eglQueryString := fun _ => some "EGL_KHR_image_base".toList }

/-- A fresh instance after a failed call against `bindOnlyEGL`. -/
def bindResolvedState : State :=
  { eglBindWaylandDisplayWL := some 100 }

/-! # Theorems -/

/-! ## Image creation -/

/-- Conversion to `EGLint` keeps the low 32 bits of the value. -/
theorem toEGLint_emod (x : Int) : toEGLint x % 2 ^ 32 = x % 2 ^ 32 := by
  unfold toEGLint
  omega

/-- Conversion to `EGLint` keeps a value that a 32-bit signed integer holds. -/
theorem toEGLint_of_range (x : Int) (hlo : -2 ^ 31 ≤ x) (hhi : x < 2 ^ 31) :
    toEGLint x = x := by
  unfold toEGLint
  omega

/-- The mask `& 0xFFFFFFFF` keeps the low 32 bits. -/
theorem land_mask_eq_mod (m : Nat) : m &&& 0xFFFFFFFF = m % 2 ^ 32 :=
  Nat.and_pow_two_sub_one_eq_mod m 32

/-- A write below the capacity of the attribute array appends the value. -/
theorem attribsStore_eq (attribs : List Int) (value : Int) (h : attribs.length < 50) :
    attribsStore attribs value = .ok (attribs ++ [value]) := by
  simp [attribsStore, h]

/-- The plane loop body appends the ten entries of plane `i` when the plane
index is below 4 and ten entries still fit. -/
theorem writePlane_eq (bufAttribs : linux_dmabuf_attributes) (i : Nat) (attribs : List Int)
    (hi : i < 4) (hlen : attribs.length + 10 ≤ 50) :
    writePlane bufAttribs i attribs = .ok (attribs ++ specPlaneAttribs bufAttribs i) := by
  have hmask := land_mask_eq_mod (bufAttribs.modifier i % 2 ^ 64)
  have hshift := Nat.shiftRight_eq_div_pow (bufAttribs.modifier i % 2 ^ 64) 32
  have hget : ∀ {α : Type} (array : Nat → α), planeArrayGet array i = .ok (array i) := by
    intro α array
    simp [planeArrayGet, MAX_DMABUF_PLANES, hi]
  obtain ⟨plane, hplane⟩ : ∃ plane, planeEnums[i]? = some plane := by
    interval_cases i <;> simp [planeEnums]
  have htags : planeEnums.getD i
      { fd := 0, offset := 0, pitch := 0, modifierLo := 0, modifierHi := 0 } = plane := by
    simp [List.getD, hplane]
  unfold writePlane specPlaneAttribs
  rw [hplane, htags]
  simp (disch := first | omega | (simp; omega)) only [hget, Outcome.bind, attribsStore_eq]
  rw [hmask, hshift]
  simp

/-- The ten entries of a plane. -/
theorem specPlaneAttribs_length (bufAttribs : linux_dmabuf_attributes) (i : Nat) :
    (specPlaneAttribs bufAttribs i).length = 10 := by
  simp [specPlaneAttribs]

/-- The plane loop appends the entries of the planes `i .. i+count-1` in
increasing order when all of them are below 4 and their entries fit. -/
theorem writePlanes_eq (bufAttribs : linux_dmabuf_attributes) :
    ∀ (count i : Nat) (attribs : List Int), i + count ≤ 4 →
      attribs.length + 10 * count ≤ 50 →
      writePlanes bufAttribs count i attribs
        = .ok (attribs ++ (List.range' i count).flatMap (specPlaneAttribs bufAttribs))
  | 0, i, attribs, _, _ => by simp [writePlanes]
  | count + 1, i, attribs, hi, hlen => by
    have hstep := writePlane_eq bufAttribs i attribs (by omega) (by omega)
    have hrest := writePlanes_eq bufAttribs count (i + 1)
      (attribs ++ specPlaneAttribs bufAttribs i) (by omega)
      (by rw [List.length_append, specPlaneAttribs_length]; omega)
    simp [writePlanes, hstep, Outcome.bind, hrest, List.range'_succ]

/-- The planes `start .. start+n-1` take ten entries each. -/
theorem specPlanes_length (bufAttribs : linux_dmabuf_attributes) :
    ∀ (n start : Nat),
      ((List.range' start n).flatMap (specPlaneAttribs bufAttribs)).length = 10 * n
  | 0, _ => by simp
  | n + 1, start => by
    rw [List.range'_succ, List.flatMap_cons, List.length_append, specPlaneAttribs_length,
      specPlanes_length bufAttribs n (start + 1)]
    omega

/-- The attribute array built for a buffer of at most 4 planes is the list the
specification gives. -/
theorem buildAttribs_eq (e : EGLEnums) (bufAttribs : linux_dmabuf_attributes) (n : Nat)
    (hplanes : bufAttribs.n_planes = (n : Int)) (hn : n ≤ 4) :
    buildAttribs e bufAttribs = .ok (specAttribs e bufAttribs n) := by
  have hloop := writePlanes_eq bufAttribs n 0
    [e.EGL_WIDTH, bufAttribs.width, e.EGL_HEIGHT, bufAttribs.height,
      e.EGL_LINUX_DRM_FOURCC_EXT, toEGLint bufAttribs.format] (by omega) (by simp; omega)
  have hlen := specPlanes_length bufAttribs n 0
  unfold buildAttribs specAttribs
  rw [hplanes, Int.toNat_ofNat]
  simp (disch := first | omega | (simp; done) | (simp; omega)) only
    [attribsStore_eq, Outcome.bind, List.nil_append, List.cons_append, List.singleton_append]
  rw [hloop]
  simp only []
  rw [attribsStore_eq _ _ (by simp [hlen]; omega), List.range_eq_range']
  simp

/-- C1. For a dma-buf buffer of `n` planes with `1 ≤ n ≤ 4`,
`createImage(dmabufBuffer)` on a bound display builds exactly the attribute
list: width, height and fourcc format with their tags, then for each plane
`0..n-1` in increasing order the descriptor, offset, pitch and the low and
high 32 bits of the modifier under that plane's own tags, then a single
`EGL_NONE`; it passes this list to the image-create function with target
`EGL_LINUX_DMA_BUF_EXT` and no buffer; the list has `7 + 10 * n` entries, and
for `n = 2` it is the 27-element list of the specification. -/
theorem createImage_dmabuf_attribute_list (e : EGLEnums) (st : State)
    (bufAttribs : linux_dmabuf_attributes) (n : Nat)
    (hbound : st.m_eglDisplay ≠ EGL_NO_DISPLAY)
    (hplanes : bufAttribs.n_planes = (n : Int)) (hlo : 1 ≤ n) (hhi : n ≤ 4) :
    buildAttribs e bufAttribs = .ok (specAttribs e bufAttribs n)
      ∧ (∀ fn, st.eglCreateImageKHR = some fn →
          createImageDmabuf e st (some bufAttribs)
            = .ok (some { fn := fn, dpy := st.m_eglDisplay, target := EGL_LINUX_DMA_BUF_EXT,
                          buffer := none, attrib_list := some (specAttribs e bufAttribs n) }))
      ∧ (specAttribs e bufAttribs n).length = 7 + 10 * n
      ∧ (n = 2 → specAttribs e bufAttribs n =
          [e.EGL_WIDTH, bufAttribs.width, e.EGL_HEIGHT, bufAttribs.height,
           e.EGL_LINUX_DRM_FOURCC_EXT, toEGLint bufAttribs.format,
           0x3272, bufAttribs.fd 0, 0x3273, toEGLint (bufAttribs.offset 0),
           0x3274, toEGLint (bufAttribs.stride 0),
           0x3443, toEGLint ((bufAttribs.modifier 0 % 2 ^ 64 % 2 ^ 32 : Nat) : Int),
           0x3444, toEGLint ((bufAttribs.modifier 0 % 2 ^ 64 / 2 ^ 32 : Nat) : Int),
           0x3275, bufAttribs.fd 1, 0x3276, toEGLint (bufAttribs.offset 1),
           0x3277, toEGLint (bufAttribs.stride 1),
           0x3445, toEGLint ((bufAttribs.modifier 1 % 2 ^ 64 % 2 ^ 32 : Nat) : Int),
           0x3446, toEGLint ((bufAttribs.modifier 1 % 2 ^ 64 / 2 ^ 32 : Nat) : Int),
           e.EGL_NONE]) := by
  have hbuild := buildAttribs_eq e bufAttribs n hplanes hhi
  refine ⟨hbuild, ?_, ?_, ?_⟩
  · intro fn hfn
    unfold createImageDmabuf
    rw [if_neg hbound]
    simp only [hbuild, Outcome.bind, hfn]
  · have hlen := specPlanes_length bufAttribs n 0
    rw [← List.range_eq_range'] at hlen
    simp [specAttribs, hlen]
    omega
  · intro h2
    subst h2
    simp [specAttribs, specPlaneAttribs, planeEnums, List.range, List.range.loop]

/-- The two-plane sample buffer on a bound display: the call made and the 27
entries of its attribute list. -/
theorem createImage_dmabuf_attribute_list_witness :
    createImageDmabuf khronosEnums boundState (some nv12Buffer)
        = .ok (some { fn := 101, dpy := 1, target := 0x3270, buffer := none,
                      attrib_list := some (specAttribs khronosEnums nv12Buffer 2) })
    ∧ specAttribs khronosEnums nv12Buffer 2
        = [0x3057, 640, 0x3056, 480, 0x3271, 0x3231564E,
           0x3272, 10, 0x3273, 0, 0x3274, 640, 0x3443, 2, 0x3444, 0x01000000,
           0x3275, 11, 0x3276, 307200, 0x3277, 640, 0x3445, 2, 0x3446, 0x01000000,
           0x3038] :=
  ⟨(createImage_dmabuf_attribute_list khronosEnums boundState nv12Buffer 2
      (by decide) rfl (by decide) (by decide)).2.1 101 rfl,
   by decide⟩

/-! ## Surface requests -/

/-- C2. The `commit` request: with no `exportableClient` it makes no call and
leaves the Surface unchanged; with one and a pending dma-buf buffer it calls
`exportLinuxDmabuf` with that buffer exactly once and leaves the Surface,
the dma-buf field included, unchanged; with one and no dma-buf buffer it calls
`exportBufferResource` exactly once with the pending legacy buffer reference
(possibly null) and the legacy-buffer field is null afterwards. -/
theorem commit_forwards_pending (surface : Surface) :
    (surface.exportableClient = none → commit surface = (surface, []))
    ∧ (∀ exportableClient dmabufBuffer, surface.exportableClient = some exportableClient →
        surface.dmabufBuffer = some dmabufBuffer →
        commit surface = (surface, [Call.exportLinuxDmabuf exportableClient dmabufBuffer])
          ∧ (commit surface).1.dmabufBuffer = some dmabufBuffer)
    ∧ (∀ exportableClient, surface.exportableClient = some exportableClient →
        surface.dmabufBuffer = none →
        commit surface = ({ surface with bufferResource := none },
            [Call.exportBufferResource exportableClient surface.bufferResource])
          ∧ (commit surface).1.bufferResource = none) := by
  refine ⟨?_, ?_, ?_⟩
  · intro h
    simp [commit, h]
  · intro c d hc hd
    simp [commit, hc, hd]
  · intro c hc hd
    simp [commit, hc, hd]

/-- The three kinds of Surface state: no `exportableClient`, one with a pending
dma-buf buffer, one with a pending legacy buffer only. -/
theorem commit_forwards_pending_witness :
    commit { id := 3, client := some 1, bufferResource := some 7 }
        = ({ id := 3, client := some 1, bufferResource := some 7 }, [])
    ∧ commit { id := 3, client := some 1, exportableClient := some 42,
               bufferResource := some 7, dmabufBuffer := some 8 }
        = ({ id := 3, client := some 1, exportableClient := some 42,
             bufferResource := some 7, dmabufBuffer := some 8 },
           [Call.exportLinuxDmabuf 42 8])
    ∧ commit { id := 3, client := some 1, exportableClient := some 42, bufferResource := some 7 }
        = ({ id := 3, client := some 1, exportableClient := some 42 },
           [Call.exportBufferResource 42 (some 7)]) :=
  ⟨(commit_forwards_pending _).1 rfl,
   ((commit_forwards_pending _).2.1 42 8 rfl rfl).1,
   ((commit_forwards_pending _).2.2 42 rfl rfl).1⟩

/-- The Surface after a run of `attach` requests that ends with `last`: only
the two buffer fields are written, and they hold the last buffer. -/
theorem attachAll_surface (get : Option Nat → Option Nat) :
    ∀ (bs : List (Option Nat)) (surface : Surface) (last : Option Nat),
      (attachAll get surface (bs ++ [last])).1
        = { surface with bufferResource := last, dmabufBuffer := get last }
  | [], surface, last => by simp [attachAll, attach]
  | b :: bs, surface, last => by
    have ih := attachAll_surface get bs (attach get surface b).1 last
    show (attachAll get (attach get surface b).1 (bs ++ [last])).1 = _
    rw [ih]
    simp [attach]

/-- The calls of a run of `attach` requests: one release for the buffer that
was pending before each request, in order, and nothing else. -/
theorem attachAll_calls (get : Option Nat → Option Nat) :
    ∀ (bs : List (Option Nat)) (surface : Surface),
      (attachAll get surface bs).2
        = (((surface.bufferResource :: bs).dropLast).filterMap id).map
            Call.wl_buffer_send_release
  | [], surface => by simp [attachAll]
  | b :: bs, surface => by
    have ih := attachAll_calls get bs (attach get surface b).1
    have hb : (attach get surface b).1.bufferResource = b := by simp [attach]
    simp only [attachAll, ih, hb, List.dropLast_cons₂]
    cases hp : surface.bufferResource <;> simp [attach, hp]

/-- Counting releases in a list of release calls counts the buffers. -/
theorem releaseCount_map (bs : List Nat) (b : Nat) :
    releaseCount (bs.map Call.wl_buffer_send_release) b = bs.count b := by
  unfold releaseCount
  induction bs with
  | nil => simp
  | cons a rest ih =>
    by_cases h : a = b
    · subst h
      simp [ih]
    · have h1 : Call.wl_buffer_send_release b ≠ Call.wl_buffer_send_release a := by
        intro hc
        exact h (Call.wl_buffer_send_release.inj hc).symm
      rw [List.map_cons, List.count_cons_of_ne h1, List.count_cons_of_ne (Ne.symm h), ih]

/-- C3 (as amended). For attach requests `b1..bn` of non-null buffers on a
Surface with no pending legacy buffer and no commit in between: afterwards
`bn` is the pending buffer (and its dma-buf lookup the pending dma-buf
buffer), the calls made are exactly one release for each of `b1..b(n-1)` in
order, so a buffer received as many releases as it has occurrences among
`b1..b(n-1)`; when the buffers are pairwise distinct, each replaced buffer
received exactly one release and `bn` none. -/
theorem attach_sequence_releases (get : Option Nat → Option Nat) (surface : Surface)
    (bs : List Nat) (bn : Nat) (hpending : surface.bufferResource = none) :
    (attachAll get surface ((bs ++ [bn]).map some)).1
        = { surface with bufferResource := some bn, dmabufBuffer := get (some bn) }
    ∧ (attachAll get surface ((bs ++ [bn]).map some)).2
        = bs.map Call.wl_buffer_send_release
    ∧ (∀ b, releaseCount (attachAll get surface ((bs ++ [bn]).map some)).2 b = bs.count b)
    ∧ ((bs ++ [bn]).Nodup →
        (∀ b ∈ bs, releaseCount (attachAll get surface ((bs ++ [bn]).map some)).2 b = 1)
        ∧ releaseCount (attachAll get surface ((bs ++ [bn]).map some)).2 bn = 0) := by
  have hcalls : (attachAll get surface ((bs ++ [bn]).map some)).2
      = bs.map Call.wl_buffer_send_release := by
    rw [attachAll_calls, hpending, List.map_append, List.map_singleton, ← List.cons_append,
      List.dropLast_concat]
    simp [List.filterMap_map]
  refine ⟨?_, hcalls, ?_, ?_⟩
  · rw [List.map_append, List.map_singleton, attachAll_surface]
  · intro b
    rw [hcalls, releaseCount_map]
  · intro hnodup
    rw [hcalls]
    have hsplit := List.nodup_append.mp hnodup
    refine ⟨fun b hb => ?_, ?_⟩
    · rw [releaseCount_map]
      exact List.count_eq_one_of_mem hsplit.1 hb
    · rw [releaseCount_map]
      apply List.count_eq_zero_of_not_mem
      intro hmem
      exact hsplit.2.2 hmem (List.mem_singleton_self bn)

/-- Three distinct buffers attached in turn: the first two are released once
each, the third stays pending unreleased. -/
theorem attach_sequence_releases_witness :
    (attachAll (fun _ => none) {} [some 5, some 6, some 7]).1
        = { bufferResource := some 7 }
    ∧ (attachAll (fun _ => none) {} [some 5, some 6, some 7]).2
        = [Call.wl_buffer_send_release 5, Call.wl_buffer_send_release 6]
    ∧ (∀ b, releaseCount (attachAll (fun _ => none) {} [some 5, some 6, some 7]).2 b
        = [5, 6].count b)
    ∧ (([5, 6] ++ [7]).Nodup →
        (∀ b ∈ [5, 6],
          releaseCount (attachAll (fun _ => none) {} [some 5, some 6, some 7]).2 b = 1)
        ∧ releaseCount (attachAll (fun _ => none) {} [some 5, some 6, some 7]).2 7 = 0) :=
  attach_sequence_releases (fun _ => none) {} [5, 6] 7 rfl

/-- C3 fails as stated: when the same buffer is attached twice, it is the
pending buffer afterwards and yet it has received a release notification. -/
theorem attach_same_buffer_is_released :
    (attachAll (fun _ => none) {} [some 7, some 7]).1.bufferResource = some 7
    ∧ ¬ releaseCount (attachAll (fun _ => none) {} [some 7, some 7]).2 7 = 0 := by
  decide

/-! ## Bridge handshake -/

/-- Sequencing after a successful outcome. -/
theorem Outcome.bind_eq_ok {α β : Type} {x : Outcome α} {f : α → Outcome β} {b : β}
    (h : x.bind f = .ok b) : ∃ a, x = .ok a ∧ f a = .ok b := by
  cases x with
  | ok a => exact ⟨a, rfl, h⟩
  | abort => simp [Outcome.bind] at h
  | undefined => simp [Outcome.bind] at h

/-- A successful run of a non-empty sequence is a successful first step
followed by a successful run of the rest. -/
theorem run_cons_ok {get : Option Nat → Option Nat} {st st2 : State} {r : Request}
    {rs : List Request} {calls : List Call}
    (h : run get st (r :: rs) = .ok (st2, calls)) :
    ∃ st1 calls1 calls2, step get st r = .ok (st1, calls1)
      ∧ run get st1 rs = .ok (st2, calls2) ∧ calls = calls1 ++ calls2 := by
  unfold run at h
  obtain ⟨a, ha, h1⟩ := Outcome.bind_eq_ok h
  obtain ⟨b, hb, h2⟩ := Outcome.bind_eq_ok h1
  cases h2
  exact ⟨a.1, a.2, b.2, ha, hb, rfl⟩

/-- The ids collected from two lists of calls. -/
theorem issuedIds_append (xs ys : List Call) :
    issuedIds (xs ++ ys) = issuedIds xs ++ issuedIds ys := by
  induction xs with
  | nil => rfl
  | cons x rest ih => cases x <;> simp [issuedIds, ih]

/-- What a successful `registerViewBackend` did. -/
theorem registerViewBackend_ok {st st1 : State} {id c : Nat} {client : Option Nat}
    (h : registerViewBackend st id c = .ok (st1, client)) :
    ∃ it surface, mapFind st.m_viewBackendMap id = some it
      ∧ st.surfaces[it]? = some surface
      ∧ st1 = { st with
                surfaces := st.surfaces.set it { surface with exportableClient := some c } }
      ∧ client = surface.client := by
  unfold registerViewBackend at h
  split at h
  · cases h
  · rename_i it hf
    split at h
    · cases h
    · rename_i surface hs
      simp only [Outcome.ok.injEq, Prod.mk.injEq] at h
      exact ⟨it, surface, hf, hs, h.1.symm, h.2.symm⟩

/-- What a successful `unregisterViewBackend` did. -/
theorem unregisterViewBackend_ok {st st1 : State} {id : Nat}
    (h : unregisterViewBackend st id = .ok st1) :
    (mapFind st.m_viewBackendMap id = none ∧ st1 = st)
    ∨ ∃ it surface, mapFind st.m_viewBackendMap id = some it
        ∧ st.surfaces[it]? = some surface
        ∧ st1 = { st with
                    surfaces := st.surfaces.set it { surface with exportableClient := none }
                    m_viewBackendMap := mapErase st.m_viewBackendMap id } := by
  unfold unregisterViewBackend at h
  split at h
  · rename_i hf
    simp only [Outcome.ok.injEq] at h
    exact Or.inl ⟨hf, h.symm⟩
  · rename_i it hf
    split at h
    · cases h
    · rename_i surface hs
      simp only [Outcome.ok.injEq] at h
      exact Or.inr ⟨it, surface, hf, hs, h.symm⟩

/-- What a successful step did, request by request. -/
theorem step_ok {get : Option Nat → Option Nat} {st st1 : State} {r : Request}
    {calls : List Call} (h : step get st r = .ok (st1, calls)) :
    (∃ client id, r = .create_surface client id ∧ (st1, calls) = create_surface st client id)
    ∨ (∃ p b s, r = .attach p b ∧ st.surfaces[p]? = some s
        ∧ st1 = { st with surfaces := st.surfaces.set p (attach get s b).1 }
        ∧ calls = (attach get s b).2)
    ∨ (∃ client p callback s, r = .frame client p callback ∧ st.surfaces[p]? = some s
        ∧ st1 = { st with objects := (frame st.objects client s callback).1 }
        ∧ calls = (frame st.objects client s callback).2)
    ∨ (∃ p s, r = .commit p ∧ st.surfaces[p]? = some s
        ∧ st1 = { st with surfaces := st.surfaces.set p (commit s).1 }
        ∧ calls = (commit s).2)
    ∨ (∃ resource surface, r = .connect resource surface
        ∧ (st1, calls) = connect st resource surface)
    ∨ (∃ id c client, r = .registerViewBackend id c
        ∧ registerViewBackend st id c = .ok (st1, client) ∧ calls = [])
    ∨ (∃ id, r = .unregisterViewBackend id
        ∧ unregisterViewBackend st id = .ok st1 ∧ calls = []) := by
  cases r with
  | create_surface client id =>
    simp only [step, Outcome.ok.injEq] at h
    exact Or.inl ⟨client, id, rfl, h.symm⟩
  | attach p b =>
    simp only [step] at h
    split at h
    · cases h
    · rename_i s hs
      simp only [Outcome.ok.injEq, Prod.mk.injEq] at h
      exact Or.inr (Or.inl ⟨p, b, s, rfl, hs, h.1.symm, h.2.symm⟩)
  | frame client p callback =>
    simp only [step] at h
    split at h
    · cases h
    · rename_i s hs
      simp only [Outcome.ok.injEq, Prod.mk.injEq] at h
      exact Or.inr (Or.inr (Or.inl ⟨client, p, callback, s, rfl, hs, h.1.symm, h.2.symm⟩))
  | commit p =>
    simp only [step] at h
    split at h
    · cases h
    · rename_i s hs
      simp only [Outcome.ok.injEq, Prod.mk.injEq] at h
      exact Or.inr (Or.inr (Or.inr (Or.inl ⟨p, s, rfl, hs, h.1.symm, h.2.symm⟩)))
  | connect resource surface =>
    simp only [step, Outcome.ok.injEq] at h
    exact Or.inr (Or.inr (Or.inr (Or.inr (Or.inl ⟨resource, surface, rfl, h.symm⟩))))
  | registerViewBackend id c =>
    simp only [step] at h
    obtain ⟨a, ha, h1⟩ := Outcome.bind_eq_ok h
    simp only [Outcome.ok.injEq, Prod.mk.injEq] at h1
    obtain ⟨rfl, rfl⟩ := h1
    exact Or.inr (Or.inr (Or.inr (Or.inr (Or.inr (Or.inl ⟨id, c, a.2, rfl, ha, rfl⟩)))))
  | unregisterViewBackend id =>
    simp only [step] at h
    obtain ⟨a, ha, h1⟩ := Outcome.bind_eq_ok h
    simp only [Outcome.ok.injEq, Prod.mk.injEq] at h1
    obtain ⟨rfl, rfl⟩ := h1
    exact Or.inr (Or.inr (Or.inr (Or.inr (Or.inr (Or.inr ⟨id, rfl, ha, rfl⟩)))))

/-- The calls of `attach` are release notifications only. -/
theorem issuedIds_attach (get : Option Nat → Option Nat) (s : Surface) (b : Option Nat) :
    issuedIds (attach get s b).2 = [] := by
  unfold attach
  cases hp : s.bufferResource <;> simp [issuedIds, hp]

/-- The calls of `frame` hold no `connected` event. -/
theorem issuedIds_frame (objects : List (Nat × Nat)) (client : Nat) (s : Surface)
    (callback : Nat) : issuedIds (frame objects client s callback).2 = [] := by
  unfold frame
  cases s.exportableClient with
  | none => rfl
  | some c => cases wl_resource_create objects client callback <;> rfl

/-- The calls of `commit` hold no `connected` event. -/
theorem issuedIds_commit (s : Surface) : issuedIds (commit s).2 = [] := by
  unfold commit
  cases s.exportableClient with
  | none => rfl
  | some c => cases s.dmabufBuffer <;> rfl

/-- A step that is a `connect` on a valid surface issues the successor of the
counter modulo `2 ^ 32` and stores it; any other successful step issues no id
and keeps the counter. -/
theorem step_bridgeID {get : Option Nat → Option Nat} {st st1 : State} {r : Request}
    {calls : List Call} (h : step get st r = .ok (st1, calls)) :
    (connectCount [r] = 1 ∧ issuedIds calls = [(st.bridgeID + 1) % 2 ^ 32]
        ∧ st1.bridgeID = (st.bridgeID + 1) % 2 ^ 32)
    ∨ (connectCount [r] = 0 ∧ issuedIds calls = [] ∧ st1.bridgeID = st.bridgeID) := by
  rcases step_ok h with ⟨client, id, rfl, hr⟩ | ⟨p, b, s, rfl, _, rfl, rfl⟩
    | ⟨client, p, callback, s, rfl, _, rfl, rfl⟩ | ⟨p, s, rfl, _, rfl, rfl⟩
    | ⟨resource, surface, rfl, hr⟩ | ⟨id, c, client, rfl, hr, rfl⟩ | ⟨id, rfl, hr, rfl⟩
  · right
    unfold create_surface at hr
    cases hc : wl_resource_create st.objects client id <;> rw [hc] at hr <;>
      simp only [Prod.mk.injEq] at hr <;> obtain ⟨rfl, rfl⟩ := hr <;>
      simp [connectCount, issuedIds]
  · right
    exact ⟨rfl, issuedIds_attach get s b, rfl⟩
  · right
    exact ⟨rfl, issuedIds_frame _ _ _ _, rfl⟩
  · right
    exact ⟨rfl, issuedIds_commit s, rfl⟩
  · cases surface with
    | none =>
      right
      simp only [connect, Prod.mk.injEq] at hr
      obtain ⟨rfl, rfl⟩ := hr
      simp [connectCount, issuedIds]
    | some p =>
      left
      simp only [connect, Prod.mk.injEq] at hr
      obtain ⟨rfl, rfl⟩ := hr
      simp [connectCount, issuedIds, createSurface]
  · right
    obtain ⟨it, surface, _, _, rfl, _⟩ := registerViewBackend_ok hr
    simp [connectCount, issuedIds]
  · right
    rcases unregisterViewBackend_ok hr with ⟨_, rfl⟩ | ⟨it, surface, _, _, rfl⟩ <;>
      simp [connectCount, issuedIds]

/-- Counting the `connect` requests of a sequence, first request apart. -/
theorem connectCount_cons (r : Request) (rs : List Request) :
    connectCount (r :: rs) = connectCount [r] + connectCount rs := by
  cases r with
  | connect resource surface => cases surface <;> simp [connectCount]; omega
  | _ => simp [connectCount]

/-- While the counter does not wrap, a successful run issues the ids that
follow the counter, one for each `connect` on a valid surface, and advances
the counter by their number. -/
theorem run_bridgeID (get : Option Nat → Option Nat) :
    ∀ (reqs : List Request) (st st2 : State) (calls : List Call),
      run get st reqs = .ok (st2, calls) → st.bridgeID + connectCount reqs < 2 ^ 32 →
      issuedIds calls = List.range' (st.bridgeID + 1) (connectCount reqs)
        ∧ st2.bridgeID = st.bridgeID + connectCount reqs
  | [], st, st2, calls, h, _ => by
    simp only [run, Outcome.ok.injEq, Prod.mk.injEq] at h
    obtain ⟨rfl, rfl⟩ := h
    simp [connectCount, issuedIds]
  | r :: rs, st, st2, calls, h, hlt => by
    obtain ⟨st1, calls1, calls2, hstep, hrest, rfl⟩ := run_cons_ok h
    rw [connectCount_cons] at hlt ⊢
    rw [issuedIds_append]
    rcases step_bridgeID hstep with ⟨hc, hids, hb⟩ | ⟨hc, hids, hb⟩
    · rw [hc] at hlt ⊢
      have hmod : (st.bridgeID + 1) % 2 ^ 32 = st.bridgeID + 1 := Nat.mod_eq_of_lt (by omega)
      rw [hmod] at hids hb
      obtain ⟨ih1, ih2⟩ := run_bridgeID get rs st1 st2 calls2 hrest (by omega)
      rw [hids, ih1, ih2, hb, Nat.add_comm 1 (connectCount rs), List.range'_succ]
      exact ⟨rfl, by omega⟩
    · rw [hc] at hlt ⊢
      obtain ⟨ih1, ih2⟩ := run_bridgeID get rs st1 st2 calls2 hrest (by omega)
      rw [hids, ih1, ih2, hb]
      simp

/-- C4 (as amended). For every sequence of requests (bridge `connect`
requests interleaved with any surface requests and any `registerViewBackend`
and `unregisterViewBackend` calls) that runs from the initial state and holds
fewer than `2 ^ 32` `connect` requests on valid surfaces, the correlation ids
issued are `1, 2, ..., k` in this order: they start at 1, are strictly
increasing, are never zero, and no id is issued twice. -/
theorem bridge_ids_strictly_increasing (get : Option Nat → Option Nat)
    (reqs : List Request) (st : State) (calls : List Call)
    (hrun : run get State.initial reqs = .ok (st, calls))
    (hcount : connectCount reqs < 2 ^ 32) :
    issuedIds calls = List.range' 1 (connectCount reqs)
      ∧ (issuedIds calls).head? = (if connectCount reqs = 0 then none else some 1)
      ∧ (issuedIds calls).Pairwise (fun a b => a < b)
      ∧ 0 ∉ issuedIds calls
      ∧ (issuedIds calls).Nodup := by
  have hinit : State.initial.bridgeID = 0 := rfl
  obtain ⟨hids, _⟩ := run_bridgeID get reqs State.initial st calls hrun (by rw [hinit]; omega)
  rw [hinit] at hids
  rw [hids]
  refine ⟨rfl, List.head?_range' _, List.pairwise_lt_range' 1 _, ?_, List.nodup_range' 1 _⟩
  intro hmem
  have := (List.mem_range'_1.mp hmem).1
  omega

/-- Three ids issued around a registration and an unregistration are
`1, 2, 3`. -/
theorem bridge_ids_strictly_increasing_witness :
    issuedIds [Call.wpe_bridge_send_connected 9 1, Call.wpe_bridge_send_connected 9 2,
        Call.wpe_bridge_send_connected 9 3] = List.range' 1 (connectCount handshakeRequests)
      ∧ (issuedIds [Call.wpe_bridge_send_connected 9 1, Call.wpe_bridge_send_connected 9 2,
          Call.wpe_bridge_send_connected 9 3]).head?
          = (if connectCount handshakeRequests = 0 then none else some 1)
      ∧ (issuedIds [Call.wpe_bridge_send_connected 9 1, Call.wpe_bridge_send_connected 9 2,
          Call.wpe_bridge_send_connected 9 3]).Pairwise (fun a b => a < b)
      ∧ 0 ∉ issuedIds [Call.wpe_bridge_send_connected 9 1, Call.wpe_bridge_send_connected 9 2,
          Call.wpe_bridge_send_connected 9 3]
      ∧ (issuedIds [Call.wpe_bridge_send_connected 9 1, Call.wpe_bridge_send_connected 9 2,
          Call.wpe_bridge_send_connected 9 3]).Nodup :=
  bridge_ids_strictly_increasing (fun _ => none) handshakeRequests handshakeState
    [Call.wpe_bridge_send_connected 9 1, Call.wpe_bridge_send_connected 9 2,
      Call.wpe_bridge_send_connected 9 3]
    (by decide) (by decide)

/-- A successful step followed by a successful run is a successful run. -/
theorem run_cons_of_ok {get : Option Nat → Option Nat} {st st1 st2 : State} {r : Request}
    {rs : List Request} {calls1 calls2 : List Call}
    (hstep : step get st r = .ok (st1, calls1)) (hrest : run get st1 rs = .ok (st2, calls2)) :
    run get st (r :: rs) = .ok (st2, calls1 ++ calls2) := by
  simp [run, hstep, hrest, Outcome.bind]

/-- Repeated `connect` requests on a valid surface always run, and issue the
successors of the counter modulo `2 ^ 32`. -/
theorem run_connect_replicate (get : Option Nat → Option Nat) (resource p : Nat) :
    ∀ (k : Nat) (st : State), ∃ st2 calls,
      run get st (List.replicate k (Request.connect resource (some p))) = .ok (st2, calls)
        ∧ issuedIds calls = (List.range k).map fun i => (st.bridgeID + 1 + i) % 2 ^ 32
  | 0, st => ⟨st, [], rfl, rfl⟩
  | k + 1, st => by
    obtain ⟨st2, calls, hrun, hids⟩ :=
      run_connect_replicate get resource p k (connect st resource (some p)).1
    have hstep : step get st (Request.connect resource (some p))
        = .ok ((connect st resource (some p)).1, (connect st resource (some p)).2) := rfl
    refine ⟨st2, _, run_cons_of_ok hstep hrun, ?_⟩
    have hb : (connect st resource (some p)).1.bridgeID = (st.bridgeID + 1) % 2 ^ 32 := rfl
    have hc : issuedIds (connect st resource (some p)).2 = [(st.bridgeID + 1) % 2 ^ 32] := rfl
    rw [issuedIds_append, hc, hids, hb, List.range_succ_eq_map, List.map_cons, List.map_map]
    simp only [Nat.add_zero, List.singleton_append, List.cons.injEq, true_and]
    apply List.map_congr_left
    intro i _
    simp only [Function.comp]
    omega

/-- C4 fails as stated: the counter is a `uint32_t`, so the `2 ^ 32`-th
`connect` of a run issues the correlation id 0. -/
theorem bridge_id_wraps_to_zero :
    ∃ st calls, run (fun _ => none) State.initial wrapRequests = .ok (st, calls)
      ∧ 0 ∈ issuedIds calls := by
  obtain ⟨st2, calls, hrun, hids⟩ :=
    run_connect_replicate (fun _ => none) 9 0 (2 ^ 32)
      (create_surface State.initial 1 3).1
  have hstep : step (fun _ => none) State.initial (Request.create_surface 1 3)
      = .ok ((create_surface State.initial 1 3).1, []) := by decide
  refine ⟨st2, [] ++ calls, run_cons_of_ok hstep hrun, ?_⟩
  rw [List.nil_append, hids]
  have hb : (create_surface State.initial 1 3).1.bridgeID = 0 := by decide
  rw [hb]
  exact List.mem_map.mpr ⟨2 ^ 32 - 1, List.mem_range.mpr (by norm_num), by norm_num⟩

/-! ## The correlation table -/

/-- After `erase`, the key is absent. -/
theorem mapFind_mapErase_self (m : List (Nat × Nat)) (id : Nat) :
    mapFind (mapErase m id) id = none := by
  induction m with
  | nil => rfl
  | cons entry rest ih =>
    obtain ⟨key, surface⟩ := entry
    by_cases h : key = id <;> simp [mapErase, mapFind, h, ih]

/-- The removal of one key leaves the lookups of all other keys as they were. -/
theorem mapFind_mapErase_ne (m : List (Nat × Nat)) {id id1 : Nat} (hne : id1 ≠ id) :
    mapFind (mapErase m id) id1 = mapFind m id1 := by
  induction m with
  | nil => rfl
  | cons entry rest ih =>
    obtain ⟨key, surface⟩ := entry
    by_cases h : key = id
    · subst h
      simp [mapErase, mapFind, Ne.symm hne, ih]
    · by_cases h1 : key = id1
      · subst h1
        simp [mapErase, mapFind, h]
      · simp [mapErase, mapFind, h, h1, ih]

/-- An insertion keeps every mapping that was present. -/
theorem mapFind_mapInsert_of_some (m : List (Nat × Nat)) {id id1 p q : Nat}
    (h : mapFind m id1 = some q) : mapFind (mapInsert m id p) id1 = some q := by
  unfold mapInsert
  cases hf : mapFind m id with
  | some _ => exact h
  | none =>
    have hne : id ≠ id1 := by
      intro heq
      rw [heq, h] at hf
      cases hf
    simp [mapFind, hne, h]

/-- A key that has a mapping is one of the keys of the table. -/
theorem mem_keys_of_mapFind (m : List (Nat × Nat)) {id q : Nat} (h : mapFind m id = some q) :
    id ∈ m.map Prod.fst := by
  induction m with
  | nil => cases h
  | cons entry rest ih =>
    obtain ⟨key, surface⟩ := entry
    by_cases hk : key = id
    · simp [hk]
    · simp only [mapFind, hk, if_false] at h
      simp [ih h]

/-- A table without the key is not changed by its removal. -/
theorem mapErase_of_absent (m : List (Nat × Nat)) (id : Nat) (h : id ∉ m.map Prod.fst) :
    mapErase m id = m := by
  induction m with
  | nil => rfl
  | cons entry rest ih =>
    obtain ⟨key, surface⟩ := entry
    rw [List.map_cons, List.mem_cons, not_or] at h
    have hk : ¬ key = id := fun hk => h.1 hk.symm
    simp [mapErase, hk, ih h.2]

/-- In a table with unique keys, the removal of a present key removes exactly
one entry. -/
theorem mapErase_length (m : List (Nat × Nat)) (id it : Nat)
    (hkeys : (m.map Prod.fst).Nodup) (h : mapFind m id = some it) :
    (mapErase m id).length + 1 = m.length := by
  induction m with
  | nil => cases h
  | cons entry rest ih =>
    obtain ⟨key, surface⟩ := entry
    rw [List.map_cons, List.nodup_cons] at hkeys
    by_cases hk : key = id
    · subst hk
      simp [mapErase, mapErase_of_absent rest key hkeys.1]
    · simp only [mapFind, hk, if_false] at h
      have := ih hkeys.2 h
      simp [mapErase, hk, this]

/-! ## View backend registration -/

/-- C5. `registerViewBackend(id, exportableClient)` terminates the process
if and only if `id` is absent from the correlation table; when `id` maps to a
Surface, it returns that Surface's client, sets that Surface's
`exportableClient` to the given one, and leaves every other Surface, the
table and the rest of the state unchanged. -/
theorem registerViewBackend_aborts_iff_absent (st : State) (id exportableClient : Nat) :
    (registerViewBackend st id exportableClient = .abort
        ↔ mapFind st.m_viewBackendMap id = none)
    ∧ (∀ it surface, mapFind st.m_viewBackendMap id = some it →
        st.surfaces[it]? = some surface →
        ∃ st1, registerViewBackend st id exportableClient = .ok (st1, surface.client)
          ∧ st1.surfaces[it]? = some { surface with exportableClient := some exportableClient }
          ∧ (∀ q, q ≠ it → st1.surfaces[q]? = st.surfaces[q]?)
          ∧ st1.m_viewBackendMap = st.m_viewBackendMap
          ∧ st1 = { st with surfaces := st1.surfaces }) := by
  refine ⟨?_, ?_⟩
  · unfold registerViewBackend
    cases hf : mapFind st.m_viewBackendMap id with
    | none => simp
    | some it => cases hs : st.surfaces[it]? <;> simp [hs]
  · intro it surface hf hs
    refine ⟨{ st with
                surfaces := st.surfaces.set it
                  { surface with exportableClient := some exportableClient } },
      ?_, ?_, ?_, rfl, rfl⟩
    · simp [registerViewBackend, hf, hs]
    · obtain ⟨hlt, _⟩ := List.getElem?_eq_some.mp hs
      exact List.getElem?_set_self hlt
    · intro q hq
      exact List.getElem?_set_ne (Ne.symm hq)

/-- C6. `unregisterViewBackend(id)` leaves the whole state unchanged when
`id` is absent from the correlation table; when `id` maps to a Surface it
clears that Surface's `exportableClient`, leaves every other Surface
unchanged, and removes the entry of `id` and no other (exactly one entry of a
table with unique keys); calling it twice yields what calling it once
yields. -/
theorem unregisterViewBackend_idempotent (st : State) (id : Nat) :
    (mapFind st.m_viewBackendMap id = none → unregisterViewBackend st id = .ok st)
    ∧ (∀ it surface, mapFind st.m_viewBackendMap id = some it →
        st.surfaces[it]? = some surface →
        ∃ st1, unregisterViewBackend st id = .ok st1
          ∧ st1.surfaces[it]? = some { surface with exportableClient := none }
          ∧ (∀ q, q ≠ it → st1.surfaces[q]? = st.surfaces[q]?)
          ∧ mapFind st1.m_viewBackendMap id = none
          ∧ (∀ id1, id1 ≠ id →
              mapFind st1.m_viewBackendMap id1 = mapFind st.m_viewBackendMap id1)
          ∧ ((st.m_viewBackendMap.map Prod.fst).Nodup →
              st1.m_viewBackendMap.length + 1 = st.m_viewBackendMap.length)
          ∧ st1 = { st with surfaces := st1.surfaces, m_viewBackendMap := st1.m_viewBackendMap })
    ∧ (unregisterViewBackend st id).bind (fun st1 => unregisterViewBackend st1 id)
        = unregisterViewBackend st id := by
  refine ⟨?_, ?_, ?_⟩
  · intro hf
    simp [unregisterViewBackend, hf]
  · intro it surface hf hs
    refine ⟨{ st with
                surfaces := st.surfaces.set it { surface with exportableClient := none }
                m_viewBackendMap := mapErase st.m_viewBackendMap id },
      ?_, ?_, ?_, ?_, ?_, ?_, rfl⟩
    · simp [unregisterViewBackend, hf, hs]
    · obtain ⟨hlt, _⟩ := List.getElem?_eq_some.mp hs
      exact List.getElem?_set_self hlt
    · intro q hq
      exact List.getElem?_set_ne (Ne.symm hq)
    · exact mapFind_mapErase_self _ _
    · intro id1 hne
      exact mapFind_mapErase_ne _ hne
    · intro hkeys
      exact mapErase_length _ id it hkeys hf
  · cases hf : mapFind st.m_viewBackendMap id with
    | none => simp [unregisterViewBackend, hf, Outcome.bind]
    | some it =>
      cases hs : st.surfaces[it]? with
      | none => simp [unregisterViewBackend, hf, hs, Outcome.bind]
      | some surface =>
        simp [unregisterViewBackend, hf, hs, Outcome.bind, mapFind_mapErase_self]


/-- On a state with id 1 connected: id 2 aborts, id 1 registers client 42 on
the Surface and returns the Surface's client. -/
theorem registerViewBackend_aborts_iff_absent_witness :
    registerViewBackend connectedState 2 42 = .abort
    ∧ ∃ st1, registerViewBackend connectedState 1 42 = .ok (st1, some 1)
        ∧ st1.surfaces[0]? = some { id := 3, client := some 1, exportableClient := some 42 }
        ∧ (∀ q, q ≠ 0 → st1.surfaces[q]? = connectedState.surfaces[q]?)
        ∧ st1.m_viewBackendMap = connectedState.m_viewBackendMap
        ∧ st1 = { connectedState with surfaces := st1.surfaces } :=
  ⟨(registerViewBackend_aborts_iff_absent connectedState 2 42).1.mpr rfl,
   (registerViewBackend_aborts_iff_absent connectedState 1 42).2 0
      { id := 3, client := some 1 } rfl rfl⟩

/-- On a state with id 1 registered: unregistering id 2 changes nothing,
unregistering id 1 clears the Surface and the entry. -/
theorem unregisterViewBackend_idempotent_witness :
    unregisterViewBackend registeredState 2 = .ok registeredState
    ∧ ∃ st1, unregisterViewBackend registeredState 1 = .ok st1
        ∧ st1.surfaces[0]? = some { id := 3, client := some 1, exportableClient := none }
        ∧ (∀ q, q ≠ 0 → st1.surfaces[q]? = registeredState.surfaces[q]?)
        ∧ mapFind st1.m_viewBackendMap 1 = none
        ∧ (∀ id1, id1 ≠ 1 →
            mapFind st1.m_viewBackendMap id1 = mapFind registeredState.m_viewBackendMap id1)
        ∧ ((registeredState.m_viewBackendMap.map Prod.fst).Nodup →
            st1.m_viewBackendMap.length + 1 = registeredState.m_viewBackendMap.length)
        ∧ st1 = { registeredState with
                    surfaces := st1.surfaces, m_viewBackendMap := st1.m_viewBackendMap } :=
  ⟨(unregisterViewBackend_idempotent registeredState 2).1 rfl,
   (unregisterViewBackend_idempotent registeredState 1).2.1 0
      { id := 3, client := some 1, exportableClient := some 42 } rfl rfl⟩

/-! ## Display binding -/

/-- The result of `strstr` is a part of the haystack. -/
theorem strstr_length : ∀ (haystack needle found : List Char),
    strstr haystack needle = some found → found.length ≤ haystack.length
  | [], needle, found, h => by
    unfold strstr at h
    split at h
    · cases h
      exact Nat.le_refl _
    · cases h
  | c :: cs, needle, found, h => by
    unfold strstr at h
    split at h
    · cases h
      exact Nat.le_refl _
    · have := strstr_length cs needle found h
      simp only [List.length_cons]
      omega

/-- For a non-empty extension name the loop of `isEGLExtensionSupported`
ends within as many iterations as the list has characters, plus one. -/
theorem isEGLExtensionSupportedLoop_total (extension : List Char) (hext : extension ≠ []) :
    ∀ (fuel : Nat) (extensionListPtr : List Char), extensionListPtr.length < fuel →
      ∃ result, isEGLExtensionSupportedLoop extension fuel extensionListPtr = some result
  | 0, _, h => by omega
  | fuel + 1, extensionListPtr, h => by
    unfold isEGLExtensionSupportedLoop
    cases hfound : strstr extensionListPtr extension with
    | none => exact ⟨false, rfl⟩
    | some found =>
      have hlen := strstr_length _ _ _ hfound
      cases hrest : found.drop extension.length with
      | nil => exact ⟨true, by simp only [hrest]⟩
      | cons c rest =>
        by_cases hc : c = ' '
        · exact ⟨true, by simp only [hrest, hc, if_true]⟩
        · have hdrop : (c :: rest).length = found.length - extension.length := by
            rw [← hrest, List.length_drop]
          have hpos : 0 < extension.length := List.length_pos.mpr hext
          have hshort : (c :: rest).length < fuel := by
            simp only [List.length_cons] at hdrop ⊢
            omega
          obtain ⟨result, hresult⟩ :=
            isEGLExtensionSupportedLoop_total extension hext fuel (c :: rest) hshort
          exact ⟨result, by simp only [hrest, hc, if_false, hresult]⟩

/-- For a non-empty extension name `isEGLExtensionSupported` returns. -/
theorem isEGLExtensionSupported_total (extensionList : Option (List Char))
    (extension : List Char) (hext : extension ≠ []) :
    ∃ result, isEGLExtensionSupported extensionList extension = some result := by
  cases extensionList with
  | none => exact ⟨false, rfl⟩
  | some list =>
    exact isEGLExtensionSupportedLoop_total extension hext (list.length + 1) list
      (Nat.lt_succ_self _)

/-- The member `Instance::initialize` returns on every input. -/
theorem initializeInstance_total (egl : EGL) (st : State) (eglDisplay : Nat) :
    ∃ result, initializeInstance egl st eglDisplay = some result := by
  obtain ⟨r1, h1⟩ := isEGLExtensionSupported_total (egl.eglQueryString eglDisplay)
    "EGL_WL_bind_wayland_display".toList (by decide)
  obtain ⟨r2, h2⟩ := isEGLExtensionSupported_total (egl.eglQueryString eglDisplay)
    "EGL_KHR_image_base".toList (by decide)
  unfold initializeInstance
  split
  · exact ⟨_, rfl⟩
  · split
    · exact ⟨_, rfl⟩
    · dsimp only
      rw [h1, h2]
      simp only [Option.bind]
      repeat' split
      all_goals exact ⟨_, rfl⟩

/-- A call with the display that is already bound returns success and
changes nothing. -/
theorem initializeInstance_same (egl : EGL) (st : State) (eglDisplay : Nat)
    (h : st.m_eglDisplay = eglDisplay) :
    initializeInstance egl st eglDisplay = some (st, true, []) := by
  simp [initializeInstance, h]

/-- A call with another display than the bound one returns failure and
changes nothing. -/
theorem initializeInstance_other (egl : EGL) (st : State) (eglDisplay : Nat)
    (hbound : st.m_eglDisplay ≠ EGL_NO_DISPLAY) (h : st.m_eglDisplay ≠ eglDisplay) :
    initializeInstance egl st eglDisplay = some (st, false, []) := by
  simp [initializeInstance, h, hbound]

/-- After a successful call the display member holds the display of the
call. -/
theorem initializeInstance_success_binds {egl : EGL} {st st1 : State} {eglDisplay : Nat}
    {calls : List Call}
    (h : initializeInstance egl st eglDisplay = some (st1, true, calls)) :
    st1.m_eglDisplay = eglDisplay := by
  unfold initializeInstance at h
  split at h
  · rename_i hsame
    simp only [Option.some.injEq, Prod.mk.injEq] at h
    rw [← h.1]
    exact hsame
  · split at h
    · simp at h
    · dsimp only at h
      generalize isEGLExtensionSupported (egl.eglQueryString eglDisplay)
        "EGL_WL_bind_wayland_display".toList = r1 at h
      generalize isEGLExtensionSupported (egl.eglQueryString eglDisplay)
        "EGL_KHR_image_base".toList = r2 at h
      rcases r1 with _ | hasBind
      · simp at h
      · simp only [Option.bind] at h
        split at h
        · simp at h
        · rcases r2 with _ | hasImage
          · simp at h
          · simp only [Option.bind] at h
            repeat' split at h
            all_goals first
              | (simp at h; done)
              | (simp only [Option.some.injEq, Prod.mk.injEq] at h; rw [← h.1])

/-- Once a display is bound, every sequence of further calls leaves the whole
state as it is, returning success for the bound display and failure for any
other. -/
theorem initializeAll_bound :
    ∀ (later : List (EGL × Nat)) (st : State), st.m_eglDisplay ≠ EGL_NO_DISPLAY →
      initializeAll st later
        = some (st, later.map fun c => decide (c.2 = st.m_eglDisplay))
  | [], _, _ => rfl
  | (egl, d) :: rest, st, hbound => by
    have ih := initializeAll_bound rest st hbound
    by_cases hd : st.m_eglDisplay = d
    · simp [initializeAll, initializeInstance_same egl st d hd, ih, hd]
    · have hd1 : ¬ d = st.m_eglDisplay := fun h => hd h.symm
      simp [initializeAll, initializeInstance_other egl st d hbound hd, ih, hd1]

/-- C7 (as amended). Once `initialize(d)` has succeeded for a display `d`
other than the `EGL_NO_DISPLAY` sentinel, `d` is bound; every later
`initialize(d)` returns success and changes no state; every later
`initialize(d1)` with `d1` different from `d` returns failure and changes no
state; and after any sequence of later calls the state, the bound display
included, is still the same, so no second display is ever bound. -/
theorem initialize_idempotent_rejects_other (egl : EGL) (st st1 : State) (d : Nat)
    (calls : List Call) (hd : d ≠ EGL_NO_DISPLAY)
    (hsuccess : initializeInstance egl st d = some (st1, true, calls)) :
    st1.m_eglDisplay = d
    ∧ (∀ egl1, initializeInstance egl1 st1 d = some (st1, true, []))
    ∧ (∀ egl1 d1, d1 ≠ d → initializeInstance egl1 st1 d1 = some (st1, false, []))
    ∧ (∀ later : List (EGL × Nat),
        initializeAll st1 later = some (st1, later.map fun c => decide (c.2 = d))) := by
  have hbinds := initializeInstance_success_binds hsuccess
  have hbound : st1.m_eglDisplay ≠ EGL_NO_DISPLAY := by rw [hbinds]; exact hd
  refine ⟨hbinds, ?_, ?_, ?_⟩
  · intro egl1
    exact initializeInstance_same egl1 st1 d hbinds
  · intro egl1 d1 hne
    exact initializeInstance_other egl1 st1 d1 hbound (by rw [hbinds]; exact Ne.symm hne)
  · intro later
    rw [initializeAll_bound later st1 hbound, hbinds]

/-- Display 5 bound on a fresh instance: it stays bound through later calls
with display 5 and with display 6. -/
theorem initialize_idempotent_rejects_other_witness :
    (boundState5).m_eglDisplay = 5
    ∧ (∀ egl1, initializeInstance egl1 boundState5 5 = some (boundState5, true, []))
    ∧ (∀ egl1 d1, d1 ≠ 5 → initializeInstance egl1 boundState5 d1 = some (boundState5, false, []))
    ∧ (∀ later : List (EGL × Nat),
        initializeAll boundState5 later
          = some (boundState5, later.map fun c => decide (c.2 = 5))) :=
  initialize_idempotent_rejects_other fullEGL State.initial boundState5 5
    [Call.eglBindWaylandDisplayWL 100 5, Call.linux_dmabuf_setup 5] (by decide) (by decide)

/-- C7 fails as stated for the sentinel: on a fresh instance
`initialize(EGL_NO_DISPLAY)` returns success, and a later `initialize(5)`,
with a display different from it, returns success too and binds display 5. -/
theorem initialize_after_sentinel_succeeds :
    initializeInstance fullEGL State.initial EGL_NO_DISPLAY = some (State.initial, true, [])
    ∧ (5 : Nat) ≠ EGL_NO_DISPLAY
    ∧ initializeInstance fullEGL State.initial 5
        = some (boundState5, true,
            [Call.eglBindWaylandDisplayWL 100 5, Call.linux_dmabuf_setup 5]) := by
  decide

/-! ## The registration invariant -/

/-- The `attach` handler does not write `exportableClient`. -/
theorem attach_exportableClient (get : Option Nat → Option Nat) (s : Surface) (b : Option Nat) :
    (attach get s b).1.exportableClient = s.exportableClient := rfl

/-- The `commit` handler does not write `exportableClient`. -/
theorem commit_exportableClient (s : Surface) :
    (commit s).1.exportableClient = s.exportableClient := by
  unfold commit
  cases h1 : s.exportableClient with
  | none => simp [h1]
  | some c => cases h2 : s.dmabufBuffer <;> simp [h1]

/-- A Surface that is overwritten by one with the same `exportableClient`
leaves the invariant in place. -/
theorem registered_set_same {st : State} {registered : List Nat} {p : Nat} {s s1 : Surface}
    (hinv : ExportableClientsRegistered st registered) (hs : st.surfaces[p]? = some s)
    (hsame : s1.exportableClient = s.exportableClient) :
    ExportableClientsRegistered { st with surfaces := st.surfaces.set p s1 } registered := by
  intro q surface c hq hc
  by_cases hqp : p = q
  · subst hqp
    obtain ⟨hlt, _⟩ := List.getElem?_eq_some.mp hs
    have hq1 : (st.surfaces.set p s1)[p]? = some s1 := List.getElem?_set_self hlt
    have hq2 : some s1 = some surface := hq1.symm.trans hq
    cases hq2
    exact hinv p s c hs (hsame ▸ hc)
  · have hq1 : (st.surfaces.set p s1)[q]? = st.surfaces[q]? := List.getElem?_set_ne hqp
    exact hinv q surface c (hq1 ▸ hq) hc

/-- Every successful request preserves the invariant. -/
theorem step_registered {get : Option Nat → Option Nat} {st st1 : State} {r : Request}
    {calls : List Call} {registered : List Nat}
    (hinv : ExportableClientsRegistered st registered)
    (h : step get st r = .ok (st1, calls)) :
    ExportableClientsRegistered st1 (trackRegistration registered r) := by
  rcases step_ok h with ⟨client, id, rfl, hr⟩ | ⟨p, b, s, rfl, hs, rfl, rfl⟩
    | ⟨client, p, callback, s, rfl, _, rfl, rfl⟩ | ⟨p, s, rfl, hs, rfl, rfl⟩
    | ⟨resource, surface, rfl, hr⟩ | ⟨id, c, client, rfl, hr, rfl⟩ | ⟨id, rfl, hr, rfl⟩
  · unfold create_surface at hr
    cases hc : wl_resource_create st.objects client id with
    | none =>
      rw [hc] at hr
      simp only [Prod.mk.injEq] at hr
      obtain ⟨rfl, rfl⟩ := hr
      exact hinv
    | some res =>
      rw [hc] at hr
      simp only [Prod.mk.injEq] at hr
      obtain ⟨rfl, rfl⟩ := hr
      intro q surface c hq hcl
      by_cases hlt : q < st.surfaces.length
      · have hq1 : (st.surfaces ++ [({ id := id, client := some client } : Surface)])[q]?
            = st.surfaces[q]? := List.getElem?_append_left hlt
        exact hinv q surface c (hq1 ▸ hq) hcl
      · have hq1 : (st.surfaces ++ [({ id := id, client := some client } : Surface)])[q]?
            = [({ id := id, client := some client } : Surface)][q - st.surfaces.length]? :=
          List.getElem?_append_right (by omega)
        have hq2 : [({ id := id, client := some client } : Surface)][q - st.surfaces.length]?
            = some surface := hq1 ▸ hq
        cases hidx : q - st.surfaces.length with
        | zero =>
          rw [hidx] at hq2
          simp only [List.getElem?_cons_zero, Option.some.injEq] at hq2
          subst hq2
          cases hcl
        | succ k =>
          rw [hidx] at hq2
          simp at hq2
  · exact registered_set_same hinv hs (attach_exportableClient get s b)
  · exact hinv
  · exact registered_set_same hinv hs (commit_exportableClient s)
  · cases surface with
    | none =>
      simp only [connect, Prod.mk.injEq] at hr
      obtain ⟨rfl, rfl⟩ := hr
      exact hinv
    | some p =>
      simp only [connect, Prod.mk.injEq] at hr
      obtain ⟨rfl, rfl⟩ := hr
      intro q surface c hq hcl
      obtain ⟨id, hid, hmem⟩ := hinv q surface c hq hcl
      exact ⟨id, mapFind_mapInsert_of_some _ hid, hmem⟩
  · obtain ⟨it, s, hf, hs, rfl, _⟩ := registerViewBackend_ok hr
    intro q surface c1 hq hcl
    by_cases hqp : it = q
    · subst hqp
      exact ⟨id, hf, List.mem_cons_self _ _⟩
    · have hq1 : (st.surfaces.set it { s with exportableClient := some c })[q]?
          = st.surfaces[q]? := List.getElem?_set_ne hqp
      obtain ⟨id1, hid1, hmem⟩ := hinv q surface c1 (hq1 ▸ hq) hcl
      exact ⟨id1, hid1, List.mem_cons_of_mem _ hmem⟩
  · rcases unregisterViewBackend_ok hr with ⟨hf, rfl⟩ | ⟨it, s, hf, hs, rfl⟩
    · intro q surface c hq hcl
      obtain ⟨id1, hid1, hmem⟩ := hinv q surface c hq hcl
      have hne : id1 ≠ id := by
        intro heq
        rw [heq, hf] at hid1
        cases hid1
      exact ⟨id1, hid1, List.mem_filter.mpr ⟨hmem, by simpa using hne⟩⟩
    · intro q surface c hq hcl
      by_cases hqp : it = q
      · subst hqp
        obtain ⟨hlt, _⟩ := List.getElem?_eq_some.mp hs
        have hq1 : (st.surfaces.set it { s with exportableClient := none })[it]?
            = some { s with exportableClient := none } := List.getElem?_set_self hlt
        have hq2 : some ({ s with exportableClient := none } : Surface) = some surface :=
          hq1.symm.trans hq
        cases hq2
        cases hcl
      · have hq1 : (st.surfaces.set it { s with exportableClient := none })[q]?
            = st.surfaces[q]? := List.getElem?_set_ne hqp
        obtain ⟨id1, hid1, hmem⟩ := hinv q surface c (hq1 ▸ hq) hcl
        have hne : id1 ≠ id := by
          intro heq
          rw [heq, hf] at hid1
          exact hqp (Option.some.inj hid1)
        exact ⟨id1, (mapFind_mapErase_ne _ hne).trans hid1,
          List.mem_filter.mpr ⟨hmem, by simpa using hne⟩⟩

/-- Every successful run preserves the invariant. -/
theorem run_registered (get : Option Nat → Option Nat) :
    ∀ (reqs : List Request) (st st2 : State) (calls : List Call) (registered : List Nat),
      ExportableClientsRegistered st registered → run get st reqs = .ok (st2, calls) →
      ExportableClientsRegistered st2 (reqs.foldl trackRegistration registered)
  | [], st, st2, calls, registered, hinv, h => by
    simp only [run, Outcome.ok.injEq, Prod.mk.injEq] at h
    obtain ⟨rfl, rfl⟩ := h
    exact hinv
  | r :: rs, st, st2, calls, registered, hinv, h => by
    obtain ⟨st1, calls1, calls2, hstep, hrest, _⟩ := run_cons_ok h
    exact run_registered get rs st1 st2 calls2 _ (step_registered hinv hstep) hrest

/-- C8. In every state reached from the initial state by surface creation,
`attach`, `commit`, `frame`, bridge `connect`, `registerViewBackend` and
`unregisterViewBackend`, a Surface with a non-null `exportableClient` is the
target of a correlation-table entry whose id was passed to a
`registerViewBackend` call that no `unregisterViewBackend` call has followed. -/
theorem exportableClient_only_while_registered (get : Option Nat → Option Nat)
    (reqs : List Request) (st : State) (calls : List Call)
    (hrun : run get State.initial reqs = .ok (st, calls))
    (p : Nat) (surface : Surface) (exportableClient : Nat)
    (hsurface : st.surfaces[p]? = some surface)
    (hclient : surface.exportableClient = some exportableClient) :
    ∃ id, mapFind st.m_viewBackendMap id = some p ∧ id ∈ registeredIds reqs := by
  have hinit : ExportableClientsRegistered State.initial [] := by
    intro q s c hq _
    simp [State.initial] at hq
  exact run_registered get reqs State.initial st calls [] hinit hrun p surface
    exportableClient hsurface hclient

/-- A state with a surface connected and registered under id 1 is reached by
creation, `connect` and `registerViewBackend`, and its Surface with an
`exportableClient` is the target of the registered entry 1. -/
theorem exportableClient_only_while_registered_witness :
    ∃ id, mapFind registeredState.m_viewBackendMap id = some 0
      ∧ id ∈ registeredIds
          [.create_surface 1 3, .connect 9 (some 0), .registerViewBackend 1 42] :=
  exportableClient_only_while_registered (fun _ => none)
    [.create_surface 1 3, .connect 9 (some 0), .registerViewBackend 1 42]
    registeredState [Call.wpe_bridge_send_connected 9 1] (by decide)
    0 { id := 3, client := some 1, exportableClient := some 42 } 42 rfl rfl

/-! ## Commits before and after registration -/

/-- Writing back the Surface that is stored changes nothing. -/
theorem set_surface_self {surfaces : List Surface} {p : Nat} {s : Surface}
    (h : surfaces[p]? = some s) : surfaces.set p s = surfaces := by
  apply List.ext_getElem?
  intro n
  by_cases hn : p = n
  · subst hn
    obtain ⟨hlt, _⟩ := List.getElem?_eq_some.mp h
    rw [List.getElem?_set_self hlt, h]
  · rw [List.getElem?_set_ne hn]

/-- The Surface stored by an overwrite is the one read back. -/
theorem get_set_surface {surfaces : List Surface} {p : Nat} {s : Surface} (s1 : Surface)
    (h : surfaces[p]? = some s) : (surfaces.set p s1)[p]? = some s1 := by
  obtain ⟨hlt, _⟩ := List.getElem?_eq_some.mp h
  exact List.getElem?_set_self hlt

/-- Two successful runs in a row are one successful run. -/
theorem run_append_of_ok (get : Option Nat → Option Nat) :
    ∀ (xs ys : List Request) (st st1 st2 : State) (calls1 calls2 : List Call),
      run get st xs = .ok (st1, calls1) → run get st1 ys = .ok (st2, calls2) →
      run get st (xs ++ ys) = .ok (st2, calls1 ++ calls2)
  | [], ys, st, st1, st2, calls1, calls2, h1, h2 => by
    simp only [run, Outcome.ok.injEq, Prod.mk.injEq] at h1
    obtain ⟨rfl, rfl⟩ := h1
    simpa using h2
  | x :: xs, ys, st, st1, st2, calls1, calls2, h1, h2 => by
    obtain ⟨sta, callsa, callsb, hstep, hrest, rfl⟩ := run_cons_ok h1
    have ih := run_append_of_ok get xs ys sta st1 st2 callsb calls2 hrest h2
    rw [List.cons_append, List.append_assoc]
    exact run_cons_of_ok hstep ih

/-- A run of `attach` requests split in two. -/
theorem attachAll_append (get : Option Nat → Option Nat) :
    ∀ (xs ys : List (Option Nat)) (s : Surface),
      attachAll get s (xs ++ ys)
        = ((attachAll get (attachAll get s xs).1 ys).1,
            (attachAll get s xs).2 ++ (attachAll get (attachAll get s xs).1 ys).2)
  | [], ys, s => by simp [attachAll]
  | x :: xs, ys, s => by
    have ih := attachAll_append get xs ys (attach get s x).1
    rw [List.cons_append]
    simp only [attachAll]
    rw [ih]
    simp only [List.append_assoc]

/-- The `attach` handler neither reads nor writes `exportableClient`. -/
theorem attachAll_with_exportableClient (get : Option Nat → Option Nat)
    (exportableClient : Option Nat) :
    ∀ (bs : List (Option Nat)) (s : Surface),
      attachAll get { s with exportableClient := exportableClient } bs
        = ({ (attachAll get s bs).1 with exportableClient := exportableClient },
            (attachAll get s bs).2)
  | [], s => rfl
  | b :: bs, s => by
    have ih := attachAll_with_exportableClient get exportableClient bs (attach get s b).1
    have hstep : attach get { s with exportableClient := exportableClient } b
        = ({ (attach get s b).1 with exportableClient := exportableClient },
            (attach get s b).2) := rfl
    simp only [attachAll, hstep, ih]

/-- A run of `attach` requests keeps `exportableClient`. -/
theorem attachAll_exportableClient (get : Option Nat → Option Nat) :
    ∀ (bs : List (Option Nat)) (s : Surface),
      (attachAll get s bs).1.exportableClient = s.exportableClient
  | [], _ => rfl
  | b :: bs, s => by
    have ih := attachAll_exportableClient get bs (attach get s b).1
    simp only [attachAll, ih, attach_exportableClient]

/-- A run of `attach` requests on the stored Surface `p`. -/
theorem run_attaches (get : Option Nat → Option Nat) (p : Nat) :
    ∀ (bs : List (Option Nat)) (st : State) (s : Surface), st.surfaces[p]? = some s →
      run get st (bs.map (Request.attach p))
        = .ok ({ st with surfaces := st.surfaces.set p (attachAll get s bs).1 },
                (attachAll get s bs).2)
  | [], st, s, hs => by
    simp only [List.map_nil, run, attachAll, set_surface_self hs]
  | b :: bs, st, s, hs => by
    have hstep : step get st (Request.attach p b)
        = .ok ({ st with surfaces := st.surfaces.set p (attach get s b).1 },
                (attach get s b).2) := by
      simp only [step, hs]
    have ih := run_attaches get p bs
      { st with surfaces := st.surfaces.set p (attach get s b).1 } (attach get s b).1
      (get_set_surface _ hs)
    rw [List.map_cons, run_cons_of_ok hstep ih]
    simp only [attachAll, List.set_set]

/-- While the Surface `p` has no `exportableClient`, a run of `attach` and
`commit` requests on it does what its `attach` requests alone do: every
`commit` leaves the state as it is and makes no call. -/
theorem run_unregistered (get : Option Nat → Option Nat) (p : Nat) :
    ∀ (pre : List BufferRequest) (st : State) (s : Surface), st.surfaces[p]? = some s →
      s.exportableClient = none →
      run get st (pre.map (BufferRequest.onSurface p))
        = .ok ({ st with surfaces := st.surfaces.set p (attachAll get s (attachedBuffers pre)).1 },
                (attachAll get s (attachedBuffers pre)).2)
  | [], st, s, hs, _ => by
    simp only [List.map_nil, run, attachedBuffers, attachAll, set_surface_self hs]
  | .attach b :: pre, st, s, hs, hnone => by
    have hstep : step get st (Request.attach p b)
        = .ok ({ st with surfaces := st.surfaces.set p (attach get s b).1 },
                (attach get s b).2) := by
      simp only [step, hs]
    have ih := run_unregistered get p pre
      { st with surfaces := st.surfaces.set p (attach get s b).1 } (attach get s b).1
      (get_set_surface _ hs) hnone
    rw [List.map_cons, BufferRequest.onSurface, run_cons_of_ok hstep ih]
    simp only [attachedBuffers, attachAll, List.set_set]
  | .commit :: pre, st, s, hs, hnone => by
    have hcommit : commit s = (s, []) := by simp [commit, hnone]
    have hstep : step get st (Request.commit p) = .ok (st, []) := by
      simp only [step, hs, hcommit, set_surface_self hs]
    have ih := run_unregistered get p pre st s hs hnone
    rw [List.map_cons, BufferRequest.onSurface, run_cons_of_ok hstep ih]
    simp only [attachedBuffers, List.nil_append]

/-- With an `exportableClient`, `commit` makes exactly one call: it forwards
the pending buffer. -/
theorem commit_calls_registered {s : Surface} {exportableClient : Nat}
    (h : s.exportableClient = some exportableClient) :
    (commit s).2 = [forwardPending exportableClient s] := by
  unfold commit forwardPending
  cases hd : s.dmabufBuffer <;> simp [h]

/-- C9 (as amended). For every sequence of `attach` and `commit` requests on
a Surface while it has no `exportableClient`, followed by the registration of
an `exportableClient`, further `attach` requests and a `commit`: the run
succeeds; up to the last `commit` the only calls are the release
notifications of the `attach` requests, so the commits before the
registration forward nothing; and the last `commit` makes exactly one call,
which forwards the Surface's pending buffer, that is the buffer of the most
recent `attach` of the whole sequence, whether that `attach` came before or
after the registration. Buffers replaced by a later `attach` are not
forwarded. -/
theorem commit_after_registration_forwards_pending (get : Option Nat → Option Nat)
    (st : State) (p : Nat) (s : Surface) (correlationId exportableClient : Nat)
    (pre : List BufferRequest) (post : List (Option Nat))
    (hs : st.surfaces[p]? = some s) (hnone : s.exportableClient = none)
    (hid : mapFind st.m_viewBackendMap correlationId = some p) :
    (∃ st2,
      run get st
          (pre.map (BufferRequest.onSurface p)
            ++ (Request.registerViewBackend correlationId exportableClient
                  :: post.map (Request.attach p))
            ++ [Request.commit p])
        = .ok (st2,
            ((((s.bufferResource :: (attachedBuffers pre ++ post)).dropLast).filterMap id).map
                Call.wl_buffer_send_release)
              ++ [forwardPending exportableClient
                    (attachAll get s (attachedBuffers pre ++ post)).1]))
    ∧ (∀ bs b, attachedBuffers pre ++ post = bs ++ [b] →
        (attachAll get s (attachedBuffers pre ++ post)).1.bufferResource = b
          ∧ (attachAll get s (attachedBuffers pre ++ post)).1.dmabufBuffer = get b) := by
  refine ⟨?_, ?_⟩
  · -- the requests before the registration
    have hpre := run_unregistered get p pre st s hs hnone
    generalize hs1def : (attachAll get s (attachedBuffers pre)).1 = s1 at hpre
    have hs1 := get_set_surface s1 hs
    -- the registration
    have hreg : step get { st with surfaces := st.surfaces.set p s1 }
        (Request.registerViewBackend correlationId exportableClient)
        = .ok ({ st with
                  surfaces := st.surfaces.set p
                    { s1 with exportableClient := some exportableClient } }, []) := by
      simp only [step, registerViewBackend, hid, hs1, Outcome.bind, List.set_set]
    -- the attach requests after the registration
    have hs2 := get_set_surface
      ({ s1 with exportableClient := some exportableClient } : Surface) hs
    have hpost := run_attaches get p post
      { st with
          surfaces := st.surfaces.set p { s1 with exportableClient := some exportableClient } }
      _ hs2
    rw [attachAll_with_exportableClient] at hpost
    simp only [List.set_set] at hpost
    -- the last commit
    have hpending : (attachAll get s1 post).1
        = (attachAll get s (attachedBuffers pre ++ post)).1 := by
      rw [attachAll_append, hs1def]
    generalize hs3def : (attachAll get s1 post).1 = s3 at hpost hpending
    have hs3 := get_set_surface
      ({ s3 with exportableClient := some exportableClient } : Surface) hs
    have hlast : step get
        { st with
            surfaces := st.surfaces.set p { s3 with exportableClient := some exportableClient } }
        (Request.commit p)
        = .ok ({ st with
                  surfaces := (st.surfaces.set p
                    { s3 with exportableClient := some exportableClient }).set p
                      (commit { s3 with exportableClient := some exportableClient }).1 },
                [forwardPending exportableClient
                  (attachAll get s (attachedBuffers pre ++ post)).1]) := by
      simp only [step, hs3]
      rw [commit_calls_registered rfl, ← hpending]
      simp only [forwardPending]
    have hend := run_cons_of_ok hlast (rfl : run get _ [] = .ok (_, []))
    have hmid := run_cons_of_ok hreg hpost
    have hall := run_append_of_ok get _ _ _ _ _ _ _
      (run_append_of_ok get _ _ _ _ _ _ _ hpre hmid) hend
    refine ⟨_, hall.trans (congrArg (fun calls => Outcome.ok (_, calls)) ?_)⟩
    rw [← attachAll_calls, attachAll_append, hs1def]
    simp
  · intro bs b hsplit
    rw [hsplit, attachAll_surface]
    exact ⟨rfl, rfl⟩

/-- Buffer 5 is attached and committed, then buffer 7 is attached and
committed, all without a backend; after the registration of client 42 the
commit forwards buffer 7, and buffer 5 only received its release. -/
theorem commit_after_registration_forwards_pending_witness :
    (∃ st2,
      run (fun _ => none) connectedState
          ([BufferRequest.attach (some 5), BufferRequest.commit,
              BufferRequest.attach (some 7), BufferRequest.commit].map
              (BufferRequest.onSurface 0)
            ++ (Request.registerViewBackend 1 42 :: ([] : List (Option Nat)).map (Request.attach 0))
            ++ [Request.commit 0])
        = .ok (st2, [Call.wl_buffer_send_release 5] ++ [Call.exportBufferResource 42 (some 7)]))
    ∧ (∀ bs b, [some 5, some 7] ++ [] = bs ++ [b] →
        (attachAll (fun _ => none) { id := 3, client := some 1 }
            ([some 5, some 7] ++ [])).1.bufferResource = b
          ∧ (attachAll (fun _ => none) { id := 3, client := some 1 }
              ([some 5, some 7] ++ [])).1.dmabufBuffer = (fun _ => none) b) :=
  commit_after_registration_forwards_pending (fun _ => none) connectedState 0
    { id := 3, client := some 1 } 1 42
    [BufferRequest.attach (some 5), BufferRequest.commit,
      BufferRequest.attach (some 7), BufferRequest.commit] [] rfl rfl rfl

/-- C9 fails as stated: buffer 7 is attached and committed before any
backend is registered; the commit after the registration of client 42
passes this buffer to `exportBufferResource`. -/
theorem commit_after_registration_forwards_earlier_buffer :
    run (fun _ => none) State.initial lateRegistrationRequests
      = .ok (registeredState,
          [Call.wpe_bridge_send_connected 9 1, Call.exportBufferResource 42 (some 7)]) := by
  decide

/-! ## Frame callbacks -/

/-- C10 (as amended). For every `frame(callback_id)` request on a Surface
with no registered `exportableClient`, the handler returns before it creates
the callback object: the live protocol objects are unchanged (so
`callback_id` is in use afterwards exactly if it was before), no call is made,
in particular none to `frameCallback`, and the process state is unchanged. -/
theorem frame_without_exportableClient (get : Option Nat → Option Nat) (st : State)
    (client p callback : Nat) (surface : Surface)
    (hsurface : st.surfaces[p]? = some surface)
    (hnone : surface.exportableClient = none) :
    frame st.objects client surface callback = (st.objects, [])
      ∧ ((client, callback) ∈ (frame st.objects client surface callback).1
          ↔ (client, callback) ∈ st.objects)
      ∧ step get st (Request.frame client p callback) = .ok (st, []) := by
  have hframe : frame st.objects client surface callback = (st.objects, []) := by
    simp [frame, hnone]
  refine ⟨hframe, by rw [hframe], ?_⟩
  simp only [step, hsurface, hframe]

/-- On a connected but unregistered Surface, `frame(5)` changes nothing and
id 5 stays unused. -/
theorem frame_without_exportableClient_witness :
    frame connectedState.objects 1 { id := 3, client := some 1 } 5
        = (connectedState.objects, [])
      ∧ ((1, 5) ∈ (frame connectedState.objects 1 { id := 3, client := some 1 } 5).1
          ↔ (1, 5) ∈ connectedState.objects)
      ∧ step (fun _ => none) connectedState (Request.frame 1 0 5) = .ok (connectedState, []) :=
  frame_without_exportableClient (fun _ => none) connectedState 1 0 5
    { id := 3, client := some 1 } rfl rfl

/-- C10 fails as stated: after `frame(5)` on a Surface without an
`exportableClient`, id 5 is not in use for the client, while on a Surface
with one the callback object is created. -/
theorem frame_creates_no_callback_unregistered :
    (1, 5) ∉ (frame [(1, 3)] 1 { id := 3, client := some 1 } 5).1
      ∧ (1, 5) ∈ (frame [(1, 3)] 1
          { id := 3, client := some 1, exportableClient := some 42 } 5).1 := by
  decide

/-! ## Attach of dma-buf and legacy buffers -/

/-- What `attach` does, for every buffer: it stores the dma-buf lookup of the
buffer and the buffer resource, and releases the buffer resource that was
pending. -/
theorem attach_eq (get : Option Nat → Option Nat) (surface : Surface)
    (bufferResource : Option Nat) :
    attach get surface bufferResource
      = ({ surface with dmabufBuffer := get bufferResource, bufferResource := bufferResource },
          (surface.bufferResource.toList).map Call.wl_buffer_send_release) := by
  unfold attach
  cases h : surface.bufferResource <;> simp [h]

/-- C11 (as amended). For every Surface state, attaching a buffer that is
backed by the dma-buf subsystem records its descriptor as the pending dma-buf
buffer and, as an attach of any buffer does, stores the buffer resource in
the pending legacy-buffer field and sends one release notification to the
buffer resource that was pending there, none if there was none; the other
members of the Surface are unchanged. -/
theorem attach_dmabuf_records_descriptor (get : Option Nat → Option Nat) (surface : Surface)
    (buffer dmabufBuffer : Nat) (hdmabuf : get (some buffer) = some dmabufBuffer) :
    (attach get surface (some buffer)).1
        = { surface with dmabufBuffer := some dmabufBuffer, bufferResource := some buffer }
      ∧ (∀ previous, surface.bufferResource = some previous →
          (attach get surface (some buffer)).2 = [Call.wl_buffer_send_release previous])
      ∧ (surface.bufferResource = none → (attach get surface (some buffer)).2 = []) := by
  rw [attach_eq, hdmabuf]
  refine ⟨rfl, ?_, ?_⟩
  · intro previous hp
    simp [hp]
  · intro hp
    simp [hp]

/-- Buffer 8, backed by dma-buf buffer 80, attached to a fresh Surface and to
one with buffer 7 pending. -/
theorem attach_dmabuf_records_descriptor_witness :
    (attach dmabufLookup { bufferResource := some 7 } (some 8)).1
        = { bufferResource := some 8, dmabufBuffer := some 80 }
      ∧ (∀ previous, ({ bufferResource := some 7 } : Surface).bufferResource = some previous →
          (attach dmabufLookup { bufferResource := some 7 } (some 8)).2
            = [Call.wl_buffer_send_release previous])
      ∧ (({ bufferResource := some 7 } : Surface).bufferResource = none →
          (attach dmabufLookup { bufferResource := some 7 } (some 8)).2 = []) :=
  attach_dmabuf_records_descriptor dmabufLookup { bufferResource := some 7 } 8 80 rfl

/-- C11 fails as stated: with buffer 7 pending, the attach of the dma-buf
backed buffer 8 sends a release notification to buffer 7 and overwrites the
pending legacy-buffer field. -/
theorem attach_dmabuf_releases_pending :
    dmabufLookup (some 8) = some 80
      ∧ (attach dmabufLookup { bufferResource := some 7 } (some 8)).2
          = [Call.wl_buffer_send_release 7]
      ∧ (attach dmabufLookup { bufferResource := some 7 } (some 8)).1.bufferResource
          ≠ ({ bufferResource := some 7 } : Surface).bufferResource := by
  decide

/-- C12 (as amended). For every Surface with pending legacy buffer `p` and
every legacy (non-dma-buf) buffer `b`, `attach(b)` sends a release
notification to `p` if and only if `p` is non-null, whether or not `p` is the
buffer `b`; the notification names the buffer that was pending before the
field is overwritten, no other call is made, and `b` is the pending legacy
buffer afterwards, with no pending dma-buf buffer. -/
theorem attach_legacy_releases_pending (get : Option Nat → Option Nat) (surface : Surface)
    (buffer : Nat) (hlegacy : get (some buffer) = none) :
    (attach get surface (some buffer)).1
        = { surface with dmabufBuffer := none, bufferResource := some buffer }
      ∧ (attach get surface (some buffer)).2
          = (surface.bufferResource.toList).map Call.wl_buffer_send_release
      ∧ (∀ p, releaseCount (attach get surface (some buffer)).2 p
          = if surface.bufferResource = some p then 1 else 0) := by
  rw [attach_eq, hlegacy]
  refine ⟨rfl, rfl, ?_⟩
  intro p
  cases hp : surface.bufferResource with
  | none => simp [releaseCount]
  | some q =>
    by_cases hq : q = p
    · subst hq
      simp [releaseCount]
    · have hne : Call.wl_buffer_send_release p ≠ Call.wl_buffer_send_release q := by
        intro hc
        exact hq (Call.wl_buffer_send_release.inj hc).symm
      simp [releaseCount, hq, List.count_cons_of_ne hne]

/-- The legacy buffer 6 attached while the different buffer 7 is pending. -/
theorem attach_legacy_releases_pending_witness :
    (attach dmabufLookup { bufferResource := some 7 } (some 6)).1
        = { bufferResource := some 6 }
      ∧ (attach dmabufLookup { bufferResource := some 7 } (some 6)).2
          = (({ bufferResource := some 7 } : Surface).bufferResource.toList).map
              Call.wl_buffer_send_release
      ∧ (∀ p, releaseCount (attach dmabufLookup { bufferResource := some 7 } (some 6)).2 p
          = if ({ bufferResource := some 7 } : Surface).bufferResource = some p then 1 else 0) :=
  attach_legacy_releases_pending dmabufLookup { bufferResource := some 7 } 6 rfl

/-- C12 fails as stated: re-attaching the pending legacy buffer 7 sends a
release notification to it. -/
theorem attach_pending_again_releases :
    dmabufLookup (some 7) = none
      ∧ (attach dmabufLookup { bufferResource := some 7 } (some 7)).2
          = [Call.wl_buffer_send_release 7]
      ∧ (attach dmabufLookup { bufferResource := some 7 } (some 7)).1.bufferResource
          = some 7 := by
  decide

/-- The calls of `attach` hand no buffer to an `ExportableClient`. -/
theorem exportCalls_attach (get : Option Nat → Option Nat) (surface : Surface)
    (bufferResource : Option Nat) :
    exportCalls (attach get surface bufferResource).2 = [] := by
  rw [attach_eq]
  cases surface.bufferResource <;> rfl

/-- The export calls collected from two lists of calls. -/
theorem exportCalls_append (xs ys : List Call) :
    exportCalls (xs ++ ys) = exportCalls xs ++ exportCalls ys := by
  induction xs with
  | nil => rfl
  | cons x rest ih => cases x <;> simp [exportCalls, ih]

/-- C17. For every Surface with a registered `exportableClient`, in every
prior state, and every buffer `b`: `attach(b)` followed at once by `commit`
makes exactly one export call, for `b`: `exportLinuxDmabuf` with the dma-buf
descriptor of `b` when `b` is dma-buf backed, `exportBufferResource(b)` when
it is not; a dma-buf buffer attached earlier is not forwarded once a legacy
buffer has been attached after it. -/
theorem attach_then_commit_forwards_attached (get : Option Nat → Option Nat)
    (surface : Surface) (exportableClient : Nat) (buffer : Option Nat)
    (hregistered : surface.exportableClient = some exportableClient) :
    exportCalls ((attach get surface buffer).2 ++ (commit (attach get surface buffer).1).2)
        = [match get buffer with
           | some dmabufBuffer => Call.exportLinuxDmabuf exportableClient dmabufBuffer
           | none => Call.exportBufferResource exportableClient buffer]
      ∧ (commit (attach get surface buffer).1).2
          = [match get buffer with
             | some dmabufBuffer => Call.exportLinuxDmabuf exportableClient dmabufBuffer
             | none => Call.exportBufferResource exportableClient buffer]
      ∧ (∀ earlier, surface.dmabufBuffer = some earlier → get buffer = none →
          Call.exportLinuxDmabuf exportableClient earlier
            ∉ (attach get surface buffer).2 ++ (commit (attach get surface buffer).1).2) := by
  have hcommit : (commit (attach get surface buffer).1).2
      = [match get buffer with
         | some dmabufBuffer => Call.exportLinuxDmabuf exportableClient dmabufBuffer
         | none => Call.exportBufferResource exportableClient buffer] := by
    rw [attach_eq]
    unfold commit
    cases hg : get buffer <;> simp [hregistered]
  refine ⟨?_, hcommit, ?_⟩
  · rw [exportCalls_append, exportCalls_attach, hcommit]
    cases get buffer <;> rfl
  · intro earlier _ hlegacy
    rw [hcommit, hlegacy, attach_eq]
    cases surface.bufferResource <;> simp

/-- With the dma-buf buffer 80 of an earlier attach still recorded and
buffer 7 pending, the attach of the legacy buffer 6 and a commit forward
buffer 6 only. -/
theorem attach_then_commit_forwards_attached_witness :
    exportCalls
        ((attach dmabufLookup
            { exportableClient := some 42, bufferResource := some 7, dmabufBuffer := some 80 }
            (some 6)).2
          ++ (commit (attach dmabufLookup
            { exportableClient := some 42, bufferResource := some 7, dmabufBuffer := some 80 }
            (some 6)).1).2)
      = [Call.exportBufferResource 42 (some 6)] :=
  (attach_then_commit_forwards_attached dmabufLookup
    { exportableClient := some 42, bufferResource := some 7, dmabufBuffer := some 80 }
    42 (some 6) rfl).1

/-! ## Images without a display -/

/-- C15. While no display is bound, both `createImage` overloads return the
"no image" sentinel for every argument, with no call through the image-create
function, and `destroyImage` returns for every argument with no call through
the image-destroy function. -/
theorem images_without_display (e : EGLEnums) (st : State)
    (hunbound : st.m_eglDisplay = EGL_NO_DISPLAY) :
    (∀ resourceBuffer, createImage e st resourceBuffer = .ok none)
      ∧ (∀ bufAttribs, createImageDmabuf e st bufAttribs = .ok none)
      ∧ (∀ image, destroyImage st image = .ok none) := by
  refine ⟨?_, ?_, ?_⟩
  · intro resourceBuffer
    simp [createImage, hunbound]
  · intro bufAttribs
    simp [createImageDmabuf, hunbound]
  · intro image
    simp [destroyImage, hunbound]

/-- On a fresh process no image is created or destroyed, also when the EGL
functions were never resolved and the buffer attributes are null. -/
theorem images_without_display_witness :
    (∀ resourceBuffer, createImage khronosEnums State.initial resourceBuffer = .ok none)
      ∧ (∀ bufAttribs, createImageDmabuf khronosEnums State.initial bufAttribs = .ok none)
      ∧ (∀ image, destroyImage State.initial image = .ok none) :=
  images_without_display khronosEnums State.initial rfl

/-! ## The end-to-end scenario -/

/-- C16. On a fresh server: the first bridge `connect` on a Surface issues
the correlation id 1 and maps it to that Surface; after
`registerViewBackend(1, client)`, the attach of a dma-buf buffer and a commit
call `exportLinuxDmabuf` of that client exactly once, with the descriptor of
that buffer, and make no `exportBufferResource` call; after
`unregisterViewBackend(1)` a further commit on the Surface makes no call and
changes no state. -/
theorem end_to_end_scenario (get : Option Nat → Option Nat)
    (client surfaceId resource exportableClient buffer dmabufBuffer : Nat)
    (hdmabuf : get (some buffer) = some dmabufBuffer) :
    run get State.initial [.create_surface client surfaceId, .connect resource (some 0)]
        = .ok ({ m_viewBackendMap := [(1, 0)], bridgeID := 1,
                 surfaces := [{ id := surfaceId, client := some client }],
                 objects := [(client, surfaceId)] },
               [Call.wpe_bridge_send_connected resource 1])
      ∧ run get State.initial
            (scenarioRequests client surfaceId resource exportableClient buffer)
          = .ok (scenarioState client surfaceId buffer dmabufBuffer,
                 [Call.wpe_bridge_send_connected resource 1,
                  Call.exportLinuxDmabuf exportableClient dmabufBuffer])
      ∧ step get (scenarioState client surfaceId buffer dmabufBuffer) (.commit 0)
          = .ok (scenarioState client surfaceId buffer dmabufBuffer, []) := by
  refine ⟨?_, ?_, ?_⟩
  · simp [run, step, create_surface, wl_resource_create, connect, createSurface, mapInsert,
      mapFind, Outcome.bind, State.initial]
  · simp [scenarioRequests, scenarioState, run, step, create_surface, wl_resource_create,
      connect, createSurface, mapInsert, mapFind, mapErase, registerViewBackend,
      unregisterViewBackend, attach, commit, Outcome.bind, State.initial, hdmabuf]
  · simp [scenarioState, step, commit]

/-- The scenario with buffer 8, backed by the dma-buf buffer 80. -/
theorem end_to_end_scenario_witness :
    run dmabufLookup State.initial (scenarioRequests 1 3 9 42 8)
      = .ok (scenarioState 1 3 8 80,
             [Call.wpe_bridge_send_connected 9 1, Call.exportLinuxDmabuf 42 80]) :=
  (end_to_end_scenario dmabufLookup 1 3 9 42 8 80 rfl).2.1

/-! ## Bounds of the attribute array -/

/-- C18. For every dma-buf attribute record with plane count `n`, `0 ≤ n ≤ 4`,
the attribute-list construction ends without an access out of bounds and
has written exactly `7 + 10 * n` entries, at most 47 and so fewer than the 50
the array holds: every write index and every plane index passed its bound. -/
theorem buildAttribs_within_bounds (e : EGLEnums) (bufAttribs : linux_dmabuf_attributes)
    (n : Nat) (hplanes : bufAttribs.n_planes = (n : Int)) (hn : n ≤ 4) :
    ∃ attribs, buildAttribs e bufAttribs = .ok attribs
      ∧ attribs.length = 7 + 10 * n
      ∧ attribs.length ≤ 47
      ∧ buildAttribs e bufAttribs ≠ .undefined := by
  have hbuild := buildAttribs_eq e bufAttribs n hplanes hn
  have hlen : (specAttribs e bufAttribs n).length = 7 + 10 * n := by
    have hplanesLen := specPlanes_length bufAttribs n 0
    rw [← List.range_eq_range'] at hplanesLen
    simp [specAttribs, hplanesLen]
    omega
  refine ⟨specAttribs e bufAttribs n, hbuild, hlen, by omega, ?_⟩
  rw [hbuild]
  exact fun h => by cases h

/-- A buffer with no plane gives 7 entries, the two-plane sample buffer 27. -/
theorem buildAttribs_within_bounds_witness :
    (∃ attribs, buildAttribs khronosEnums noPlaneBuffer = .ok attribs
      ∧ attribs.length = 7 + 10 * 0
      ∧ attribs.length ≤ 47
      ∧ buildAttribs khronosEnums noPlaneBuffer ≠ .undefined)
    ∧ (∃ attribs, buildAttribs khronosEnums nv12Buffer = .ok attribs
      ∧ attribs.length = 7 + 10 * 2
      ∧ attribs.length ≤ 47
      ∧ buildAttribs khronosEnums nv12Buffer ≠ .undefined) :=
  ⟨buildAttribs_within_bounds khronosEnums noPlaneBuffer 0 rfl (by decide),
   buildAttribs_within_bounds khronosEnums nv12Buffer 2 rfl (by decide)⟩

/-! ## Client creation -/

/-- A `createClient` call on a bound display with a socket pair. -/
theorem createClient_bound (st : State) (pair : Int × Int) (dup : Int → Int)
    (hbound : st.m_eglDisplay ≠ EGL_NO_DISPLAY) :
    createClient st (some pair) dup
      = ({ st with clients := st.clients ++ [pair.1] }, dup pair.2,
          [Call.wl_client_create pair.1]) := by
  simp [createClient, hbound]

/-- A sequence of `createClient` calls on a bound display. -/
theorem createClients_bound :
    ∀ (requests : List ((Int × Int) × (Int → Int))) (st : State),
      st.m_eglDisplay ≠ EGL_NO_DISPLAY →
      createClients st requests
        = ({ st with clients := st.clients ++ requests.map fun r => r.1.1 },
            requests.map (fun r => r.2 r.1.2),
            requests.map fun r => Call.wl_client_create r.1.1)
  | [], st, _ => by simp [createClients]
  | (pair, dup) :: rest, st, hbound => by
    have ih := createClients_bound rest { st with clients := st.clients ++ [pair.1] } hbound
    simp only [createClients, createClient_bound st pair dup hbound, ih]
    simp

/-- C13 (as amended). `createClient` returns the invalid descriptor -1,
and changes nothing, while no display is bound, so on a fresh process before
any `initialize` call. After an `initialize` call that returned success for a
display other than the `EGL_NO_DISPLAY` sentinel, every `createClient` call
for which the OS yields a socket pair hands one end to the protocol display
as one new client connection and returns what `dup` returns for the other
end, a valid descriptor whenever the duplication succeeds. -/
theorem createClient_after_display_bound (egl : EGL) (st st1 : State) (d : Nat)
    (calls : List Call) (hd : d ≠ EGL_NO_DISPLAY)
    (hsuccess : initializeInstance egl st d = some (st1, true, calls)) :
    (∀ socketpair dup, createClient State.initial socketpair dup = (State.initial, -1, []))
      ∧ (∀ st0 socketpair dup, st0.m_eglDisplay = EGL_NO_DISPLAY →
          createClient st0 socketpair dup = (st0, -1, []))
      ∧ (∀ requests : List ((Int × Int) × (Int → Int)),
          createClients st1 requests
            = ({ st1 with clients := st1.clients ++ requests.map fun r => r.1.1 },
                requests.map (fun r => r.2 r.1.2),
                requests.map fun r => Call.wl_client_create r.1.1))
      ∧ (∀ requests : List ((Int × Int) × (Int → Int)),
          (∀ r ∈ requests, 0 ≤ r.2 r.1.2) →
          ∀ fd ∈ (createClients st1 requests).2.1, 0 ≤ fd) := by
  have hbound : st1.m_eglDisplay ≠ EGL_NO_DISPLAY := by
    rw [initializeInstance_success_binds hsuccess]
    exact hd
  refine ⟨?_, ?_, ?_, ?_⟩
  · intro socketpair dup
    simp [createClient, State.initial]
  · intro st0 socketpair dup h0
    simp [createClient, h0]
  · intro requests
    exact createClients_bound requests st1 hbound
  · intro requests hvalid fd hfd
    rw [createClients_bound requests st1 hbound] at hfd
    obtain ⟨r, hr, rfl⟩ := List.mem_map.mp hfd
    exact hvalid r hr

/-- After display 5 was bound, two `createClient` calls with the socket
pairs (3, 4) and (6, 7) add the clients 3 and 6 and return the duplicates 8
and 9. -/
theorem createClient_after_display_bound_witness :
    createClients boundState5 [((3, 4), fun _ => 8), ((6, 7), fun _ => 9)]
      = ({ boundState5 with clients := [3, 6] }, [8, 9],
          [Call.wl_client_create 3, Call.wl_client_create 6]) :=
  (createClient_after_display_bound fullEGL State.initial boundState5 5
    [Call.eglBindWaylandDisplayWL 100 5, Call.linux_dmabuf_setup 5]
    (by decide) (by decide)).2.2.1 [((3, 4), fun _ => 8), ((6, 7), fun _ => 9)]

/-- C13 fails as stated: after `initialize(EGL_NO_DISPLAY)` returned success
on a fresh instance, `createClient` returns -1; and on a bound display, with
a socket pair created, `createClient` returns -1 when `dup` fails, after it
has handed the other end to the protocol display. -/
theorem createClient_invalid_after_success :
    initializeInstance fullEGL State.initial EGL_NO_DISPLAY = some (State.initial, true, [])
      ∧ createClient State.initial (some (3, 4)) (fun _ => 8) = (State.initial, -1, [])
      ∧ createClient boundState5 (some (3, 4)) (fun _ => -1)
          = ({ boundState5 with clients := [3] }, -1, [Call.wl_client_create 3]) := by
  decide

/-! ## Failing display binding -/

/-- C14 (as amended). For every call `initialize(d)`, `d` not the sentinel,
on an Instance with no display bound, in any state: if the extension list of
`d` lacks the bind-display extension and no bind function is stored from an
earlier call, or has it and the bind function does not resolve, or lacks the
image-creation extension while the create and destroy functions are not both
stored from an earlier call, or has it and one of the two does not resolve,
then `initialize` returns failure, makes no call and leaves the bound display
and every member of the state other than the three function pointers
unchanged; a function pointer keeps its value when its extension is lacking,
so a call that finds no bind-display extension and no stored bind function
changes nothing at all. -/
theorem initialize_failure_keeps_display (egl : EGL) (st : State) (d : Nat)
    (hasBind hasImage : Bool)
    (hunbound : st.m_eglDisplay = EGL_NO_DISPLAY) (hd : d ≠ EGL_NO_DISPLAY)
    (h1 : isEGLExtensionSupported (egl.eglQueryString d)
      "EGL_WL_bind_wayland_display".toList = some hasBind)
    (h2 : isEGLExtensionSupported (egl.eglQueryString d)
      "EGL_KHR_image_base".toList = some hasImage)
    (hmissing : (hasBind = false ∧ st.eglBindWaylandDisplayWL = none)
      ∨ (hasBind = true ∧ egl.eglGetProcAddress "eglBindWaylandDisplayWL" = none)
      ∨ (hasImage = false ∧ (st.eglCreateImageKHR = none ∨ st.eglDestroyImageKHR = none))
      ∨ (hasImage = true ∧ (egl.eglGetProcAddress "eglCreateImageKHR" = none
          ∨ egl.eglGetProcAddress "eglDestroyImageKHR" = none))) :
    ∃ st1, initializeInstance egl st d = some (st1, false, [])
      ∧ st1.m_eglDisplay = EGL_NO_DISPLAY
      ∧ st1 = { st with
                  eglBindWaylandDisplayWL := st1.eglBindWaylandDisplayWL
                  eglCreateImageKHR := st1.eglCreateImageKHR
                  eglDestroyImageKHR := st1.eglDestroyImageKHR }
      ∧ (hasBind = false → st1.eglBindWaylandDisplayWL = st.eglBindWaylandDisplayWL)
      ∧ (hasImage = false → st1.eglCreateImageKHR = st.eglCreateImageKHR
          ∧ st1.eglDestroyImageKHR = st.eglDestroyImageKHR)
      ∧ (hasBind = false → st.eglBindWaylandDisplayWL = none → st1 = st) := by
  have hne : ¬ st.m_eglDisplay = d := by rw [hunbound]; exact Ne.symm hd
  unfold initializeInstance
  rw [if_neg hne, if_neg (by simp [hunbound])]
  dsimp only
  rw [h1, h2]
  simp only [Option.bind]
  obtain ⟨m, v, b, pb, pc, pd, ss, os, cs⟩ := st
  simp only at hunbound hmissing
  subst hunbound
  cases hasBind <;> cases hasImage <;> cases pb <;> cases pc <;> cases pd <;>
    cases hb : egl.eglGetProcAddress "eglBindWaylandDisplayWL" <;>
    cases hc : egl.eglGetProcAddress "eglCreateImageKHR" <;>
    cases hdd : egl.eglGetProcAddress "eglDestroyImageKHR" <;>
    simp_all

/-- On a fresh instance, a display with the image-creation extension only is
rejected and nothing is changed. -/
theorem initialize_failure_keeps_display_witness :
    ∃ st1, initializeInstance imageOnlyEGL State.initial 5 = some (st1, false, [])
      ∧ st1.m_eglDisplay = EGL_NO_DISPLAY
      ∧ st1 = State.initial :=
  (initialize_failure_keeps_display imageOnlyEGL State.initial 5 false true rfl
    (by decide) (by decide) (by decide) (Or.inl ⟨rfl, rfl⟩)).imp
    fun _ h => ⟨h.1, h.2.1, h.2.2.2.2.2 rfl rfl⟩

/-- C14 fails as stated: on a fresh instance, a call for a display that has
the bind-display extension and lacks the image-creation extension returns
failure and leaves the bind function resolved; after it, a call for display
6, whose extension list lacks the bind-display extension, returns success
and binds display 6. -/
theorem initialize_failure_keeps_bind_function :
    initializeInstance bindOnlyEGL State.initial 5 = some (bindResolvedState, false, [])
      ∧ bindResolvedState.eglBindWaylandDisplayWL ≠ State.initial.eglBindWaylandDisplayWL
      ∧ isEGLExtensionSupported (imageOnlyEGL.eglQueryString 6)
          "EGL_WL_bind_wayland_display".toList = some false
      ∧ initializeInstance imageOnlyEGL bindResolvedState 6
          = some ({ m_eglDisplay := 6, eglBindWaylandDisplayWL := some 100,
                    eglCreateImageKHR := some 101, eglDestroyImageKHR := some 102 },
                  true, [Call.eglBindWaylandDisplayWL 100 6, Call.linux_dmabuf_setup 6]) := by
  decide

/-! ## Resolved functions on a bound display -/

/-- One `initialize` call keeps the three functions resolved on a bound
display. -/
theorem initializeInstance_resolved {egl : EGL} {st st1 : State} {d : Nat} {result : Bool}
    {calls : List Call} (hinv : FunctionsResolved st)
    (h : initializeInstance egl st d = some (st1, result, calls)) :
    FunctionsResolved st1 := by
  unfold initializeInstance at h
  split at h
  · simp only [Option.some.injEq, Prod.mk.injEq] at h
    rw [← h.1]
    exact hinv
  · split at h
    · simp only [Option.some.injEq, Prod.mk.injEq] at h
      rw [← h.1]
      exact hinv
    · rename_i hunbound
      simp only [ne_eq, not_not] at hunbound
      dsimp only at h
      generalize isEGLExtensionSupported (egl.eglQueryString d)
        "EGL_WL_bind_wayland_display".toList = r1 at h
      generalize isEGLExtensionSupported (egl.eglQueryString d)
        "EGL_KHR_image_base".toList = r2 at h
      unfold FunctionsResolved
      obtain ⟨m, v, b, pb, pc, pd, ss, os, cs⟩ := st
      simp only at hunbound
      subst hunbound
      rcases r1 with _ | hasBind
      · simp at h
      · rcases r2 with _ | hasImage <;> cases hasBind <;> cases pb <;>
          cases hb : egl.eglGetProcAddress "eglBindWaylandDisplayWL" <;>
          simp [hb] at h <;>
          first
            | (obtain ⟨rfl, _, _⟩ := h; simp)
            | skip
        all_goals
          cases hasImage <;> cases pc <;> cases pd <;>
            cases hc : egl.eglGetProcAddress "eglCreateImageKHR" <;>
            cases hdd : egl.eglGetProcAddress "eglDestroyImageKHR" <;>
            simp [hc, hdd] at h <;>
            first
              | (obtain ⟨rfl, _, _⟩ := h; simp)
              | (split at h <;> simp at h <;> obtain ⟨rfl, _, _⟩ := h <;> simp)

/-- A sequence of `initialize` calls always returns. -/
theorem initializeAll_total :
    ∀ (calls : List (EGL × Nat)) (st : State), ∃ r, initializeAll st calls = some r
  | [], st => ⟨_, rfl⟩
  | (egl, d) :: rest, st => by
    obtain ⟨r, hr⟩ := initializeInstance_total egl st d
    obtain ⟨q, hq⟩ := initializeAll_total rest r.1
    exact ⟨(q.1, r.2.1 :: q.2), by simp only [initializeAll, hr, Option.bind, hq]⟩

/-- A sequence of `initialize` calls keeps the three functions resolved on a
bound display. -/
theorem initializeAll_resolved :
    ∀ (calls : List (EGL × Nat)) (st st1 : State) (results : List Bool),
      FunctionsResolved st → initializeAll st calls = some (st1, results) →
      FunctionsResolved st1
  | [], st, st1, results, hinv, h => by
    simp only [initializeAll, Option.some.injEq, Prod.mk.injEq] at h
    rw [← h.1]
    exact hinv
  | (egl, d) :: rest, st, st1, results, hinv, h => by
    simp only [initializeAll] at h
    cases hr : initializeInstance egl st d with
    | none => rw [hr] at h; simp at h
    | some r =>
      rw [hr] at h
      simp only [Option.bind] at h
      cases hq : initializeAll r.1 rest with
      | none => rw [hq] at h; simp at h
      | some q =>
        rw [hq] at h
        simp only [Option.some.injEq, Prod.mk.injEq] at h
        rw [← h.1]
        obtain ⟨ra, rb, rc⟩ := r
        obtain ⟨qa, qb⟩ := q
        exact initializeAll_resolved rest ra qa qb (initializeInstance_resolved hinv hr) hq

/-- C19. Every sequence of `initialize` calls on a fresh process, successful
or failing, with any extension lists and any function-resolution results,
returns and leads to a state in which, if a display is bound, the
bind-display, image-create and image-destroy function pointers are all
resolved; so in that state `createImage` and `destroyImage` never call an
unresolved function. -/
theorem functions_resolved_when_bound (e : EGLEnums) (calls : List (EGL × Nat)) :
    ∃ st results, initializeAll State.initial calls = some (st, results)
      ∧ (st.m_eglDisplay ≠ EGL_NO_DISPLAY →
          ∃ bindFn createFn destroyFn, st.eglBindWaylandDisplayWL = some bindFn
            ∧ st.eglCreateImageKHR = some createFn ∧ st.eglDestroyImageKHR = some destroyFn)
      ∧ (∀ resourceBuffer, createImage e st resourceBuffer ≠ .undefined)
      ∧ (∀ image, destroyImage st image ≠ .undefined)
      ∧ (∀ bufAttribs attribs, buildAttribs e bufAttribs = .ok attribs →
          createImageDmabuf e st (some bufAttribs) ≠ .undefined) := by
  obtain ⟨⟨st, results⟩, hrun⟩ := initializeAll_total calls State.initial
  have hinit : FunctionsResolved State.initial := fun h => absurd rfl h
  have hinv := initializeAll_resolved calls State.initial st results hinit hrun
  refine ⟨st, results, hrun, ?_, ?_, ?_, ?_⟩
  · intro hbound
    obtain ⟨hb, hc, hd⟩ := hinv hbound
    obtain ⟨bindFn, hb1⟩ := Option.ne_none_iff_exists'.mp hb
    obtain ⟨createFn, hc1⟩ := Option.ne_none_iff_exists'.mp hc
    obtain ⟨destroyFn, hd1⟩ := Option.ne_none_iff_exists'.mp hd
    exact ⟨bindFn, createFn, destroyFn, hb1, hc1, hd1⟩
  · intro resourceBuffer
    unfold createImage
    by_cases hbound : st.m_eglDisplay = EGL_NO_DISPLAY
    · simp [hbound]
    · obtain ⟨createFn, hc1⟩ := Option.ne_none_iff_exists'.mp (hinv hbound).2.1
      simp [hbound, hc1]
  · intro image
    unfold destroyImage
    by_cases hbound : st.m_eglDisplay = EGL_NO_DISPLAY
    · simp [hbound]
    · obtain ⟨destroyFn, hd1⟩ := Option.ne_none_iff_exists'.mp (hinv hbound).2.2
      simp [hbound, hd1]
  · intro bufAttribs attribs hbuild
    unfold createImageDmabuf
    by_cases hbound : st.m_eglDisplay = EGL_NO_DISPLAY
    · simp [hbound]
    · obtain ⟨createFn, hc1⟩ := Option.ne_none_iff_exists'.mp (hinv hbound).2.1
      simp [hbound, hc1, hbuild, Outcome.bind]

/-- A failing call that resolves the bind function only, followed by a call
for a display that has the image-creation extension only: the run returns,
and the state it leads to satisfies the conclusion. -/
theorem functions_resolved_when_bound_witness :
    ∃ st results,
      initializeAll State.initial [(bindOnlyEGL, 5), (imageOnlyEGL, 6)] = some (st, results)
      ∧ (st.m_eglDisplay ≠ EGL_NO_DISPLAY →
          ∃ bindFn createFn destroyFn, st.eglBindWaylandDisplayWL = some bindFn
            ∧ st.eglCreateImageKHR = some createFn ∧ st.eglDestroyImageKHR = some destroyFn)
      ∧ (∀ resourceBuffer, createImage khronosEnums st resourceBuffer ≠ .undefined)
      ∧ (∀ image, destroyImage st image ≠ .undefined)
      ∧ (∀ bufAttribs attribs, buildAttribs khronosEnums bufAttribs = .ok attribs →
          createImageDmabuf khronosEnums st (some bufAttribs) ≠ .undefined) :=
  functions_resolved_when_bound khronosEnums [(bindOnlyEGL, 5), (imageOnlyEGL, 6)]

/-! ## The extension check -/

/-- C20 (the code at the failing input). A null list gives `false`, and the
list `EGL_KHR_image EGL_KHR_image_base` holds the name `EGL_KHR_image_base`
and gives `true`; but for the list `EGL_KHR_fence_sync XEGL_KHR_image_base`,
whose names are `EGL_KHR_fence_sync` and `XEGL_KHR_image_base`,
`isEGLExtensionSupported` returns `true` for `EGL_KHR_image_base`, which is
none of the names of the list: the code tests the character after an
occurrence and not the character before it. -/
theorem isEGLExtensionSupported_accepts_name_suffix :
    isEGLExtensionSupported none "EGL_KHR_image_base".toList = some false
      ∧ isEGLExtensionSupported (some "EGL_KHR_image EGL_KHR_image_base".toList)
          "EGL_KHR_image_base".toList = some true
      ∧ spaceSeparatedNames "EGL_KHR_fence_sync XEGL_KHR_image_base".toList
          = ["EGL_KHR_fence_sync".toList, "XEGL_KHR_image_base".toList]
      ∧ "EGL_KHR_image_base".toList
          ∉ spaceSeparatedNames "EGL_KHR_fence_sync XEGL_KHR_image_base".toList
      ∧ isEGLExtensionSupported (some "EGL_KHR_fence_sync XEGL_KHR_image_base".toList)
          "EGL_KHR_image_base".toList = some true := by
  decide

end WS
